import Mathlib

/-!
Verification of the core pricing library: calendar and date arithmetic
(Date.cpp), the curve store with linear interpolation (Market.cpp), the
binomial-tree pricers (Pricer.cpp), and the bump-and-revalue risk engine
(RiskEngine.cpp together with MarketDecorators.h).

Modelling conventions.  C++ `double` values are modelled as exact
rationals (`ℚ`); the transcendental standard-library helpers `std::exp`
and `std::sqrt` are passed in as explicit function parameters `rexp` and
`rsqrt`, so every definition stays executable.  A `Date` is identified
with its Excel serial number (`ℤ`), the representation the source uses
for every comparison and arithmetic operation; the year/month/day
conversions of Date.cpp are embedded separately.  The `shared_ptr` graph
that `Market` (Market.cpp) and the decorators (MarketDecorators.h)
mutate is modelled by an explicit heap of curves addressed by indices.
-/

namespace Cpp

/-! ## Calendar engine (Date.cpp) -/

/-- `Date::isGregorianLeap` (Date.cpp): divisible by 4 and not by 100
unless by 400. -/
def isGregorianLeap (y : ℤ) : Bool :=
  y % 4 == 0 && (y % 100 != 0 || y % 400 == 0)

/-- The leap test effectively used by `Date::calculateSerialNumber`
(Date.cpp): the Gregorian rule with Excel's special case that 1900 is
treated as a leap year. -/
def isExcelLeap (y : ℤ) : Bool :=
  if y == 1900 then true else isGregorianLeap y

/-- The `monthDays` table of Date.cpp (without its dummy leading 0):
lengths of the twelve months, with February depending on `leap`. -/
def monthDays (leap : Bool) : List ℤ :=
  [31, if leap then 29 else 28, 31, 30, 31, 30, 31, 31, 30, 31, 30, 31]

/-- `Date::calculateSerialNumber` (Date.cpp): the Excel serial of a
(year, month, day) triple — whole years since 1900 (1900 counted as a
leap year), plus the completed months of the current year, plus the day
of month. -/
def calculateSerialNumber (y m d : ℤ) : ℤ :=
  let yearDays := ((List.range (y - 1900).toNat).map (fun i =>
    if isExcelLeap (1900 + (i : ℤ)) then (366 : ℤ) else 365)).sum
  let monthSum := ((monthDays (isExcelLeap y)).take (m - 1).toNat).sum
  yearDays + monthSum + d

/-- Year-finding loop of `Date::calculateYMD` (Date.cpp): starting at
year 1900, subtract whole Gregorian years while more than one year of
days remains.  The source loop is `while (true)`; `fuel` bounds its
iterations and is taken larger than the year span the `Date`
constructors accept (1800..9999). -/
def ymdYearLoop : ℕ → ℤ → ℤ → ℤ × ℤ
  | 0, y, dayNum => (y, dayNum)
  | fuel + 1, y, dayNum =>
    let daysInYear : ℤ := if isGregorianLeap y then 366 else 365
    if dayNum ≤ daysInYear then (y, dayNum)
    else ymdYearLoop fuel (y + 1) (dayNum - daysInYear)

/-- Month-finding loop of `Date::calculateYMD` (Date.cpp): walk the
month-length table, subtracting full months. -/
def ymdMonthLoop : List ℤ → ℤ → ℤ → ℤ × ℤ
  | [], m, dayNum => (m, dayNum)
  | md :: rest, m, dayNum =>
    if dayNum ≤ md then (m, dayNum)
    else ymdMonthLoop rest (m + 1) (dayNum - md)

/-- `Date::calculateYMD` (Date.cpp): convert an Excel serial number back
to (year, month, day).  Serial 60 is Excel's phantom 1900-02-29; any
serial above 60 drops one day to compensate, and calendar progression
then uses the standard Gregorian rule. -/
def calculateYMD (sn : ℤ) : ℤ × ℤ × ℤ :=
  if sn = 60 then (1900, 2, 29)
  else
    let dayNumForCalc := if sn > 60 then sn - 1 else sn
    let yr := ymdYearLoop 8200 1900 dayNumForCalc
    let md := ymdMonthLoop (monthDays (isGregorianLeap yr.1)) 1 yr.2
    (yr.1, md.1, md.2)

/-- The `toLower` helper of Date.cpp (a `std::tolower` over each
character, C locale): lowercase the ASCII letters A..Z. -/
def charToLower (c : Char) : Char :=
  if 65 ≤ c.toNat ∧ c.toNat ≤ 90 then Char.ofNat (c.toNat + 32) else c

/-- `std::stoi` as `dateAddTenor` uses it: an optional sign followed by
at least one decimal digit; trailing non-digit characters are ignored;
no digits means a thrown exception (`none` here).  (The
leading-whitespace skipping of `stoi` is omitted: no tenor string in
this code base is padded.) -/
def stoiInt (l : List Char) : Option ℤ :=
  let signRest : ℤ × List Char :=
    match l with
    | '-' :: r => (-1, r)
    | '+' :: r => (1, r)
    | r => (1, r)
  let digits := signRest.2.takeWhile Char.isDigit
  if digits = [] then none
  else
    some (signRest.1 *
      digits.foldl (fun acc c => acc * 10 + ((c.toNat : ℤ) - 48)) 0)

/-- `dateAddTenor` (Date.cpp): add a tenor string ("ON"/"O/N", or a
number followed by d/w/m/y, case-insensitive) to a serial date, with the
money-market approximations month = 30 days and year = 360 days.  The
`std::string` is modelled as its character sequence; exceptions are
modelled with `Except`; `.back()` and `.substr(0, n-1)` become
`getLastD`/`dropLast` (the source guards emptiness first).  A
non-positive resulting serial throws. -/
def dateAddTenor (currentSerial : ℤ) (tenorStr : List Char) : Except String ℤ := do
  let lowerTenor := tenorStr.map charToLower
  let newSerial : ℤ ←
    if lowerTenor = ['o', 'n'] ∨ lowerTenor = ['o', '/', 'n'] then
      pure (currentSerial + 1)
    else if lowerTenor = [] then throw "Empty tenor string."
    else
      let unit := lowerTenor.getLastD ' '
      let numPartStr := lowerTenor.dropLast
      if numPartStr = [] then throw "Tenor string missing number"
      else
        match stoiInt numPartStr with
        | none => throw "Invalid number in tenor string"
        | some numUnits =>
          if unit = 'd' then pure (currentSerial + numUnits)
          else if unit = 'w' then pure (currentSerial + numUnits * 7)
          else if unit = 'm' then pure (currentSerial + numUnits * 30)
          else if unit = 'y' then pure (currentSerial + numUnits * 360)
          else throw "Unsupported tenor unit"
  if newSerial ≤ 0 then throw "Calculated new serial is non-positive in dateAddTenor"
  else pure newSerial

/-- `operator-(const Date&, const Date&)` (Date.cpp): simple Act/365
year fraction between two serial dates. -/
def yearsBetween (s1 s2 : ℤ) : ℚ := ((s1 - s2 : ℤ) : ℚ) / 365

/-! ## Curve store (Market.cpp)

`RateCurve` (members `tenorDates`/`rates`, operations `addRate`,
`getRate`, `shock`) and `VolCurve` (members `tenors`/`vols`, operations
`addVol`, `getVol`, `shock`) are member-for-member identical in
Market.h/Market.cpp; one structure `Curve` embeds both.  Dates are kept
as their serial numbers, which is exactly what every `Date` comparison
in the source reads. -/

/-- A rate or volatility curve: parallel vectors of knot dates (serial
numbers) and knot values. -/
structure Curve where
  dates : List ℤ
  vals : List ℚ
  deriving Repr, DecidableEq, Inhabited

/-- A default-constructed (empty) curve. -/
def emptyCurve : Curve := ⟨[], []⟩

/-- The index computed by `std::lower_bound(begin, end, x)` on the
sorted knot list: the number of leading elements `< x`. -/
def lowerBoundIdx (l : List ℤ) (x : ℤ) : ℕ := (l.takeWhile (· < x)).length

/-- `imp::linearInterpolate` (Market.cpp): linear interpolation with
flat clamping outside `[x0, x1]` and a degenerate-interval guard. -/
def linearInterpolate (x0 y0 x1 y1 x : ℚ) : ℚ :=
  if x1 = x0 then y0
  else if x ≤ x0 then y0
  else if x1 ≤ x then y1
  else y0 + (x - x0) * (y1 - y0) / (x1 - x0)

/-- `RateCurve::addRate` / `VolCurve::addVol` (Market.cpp): locate the
insertion point with `lower_bound`; if the date is already stored,
overwrite its value, otherwise insert date and value at that position. -/
def Curve.addPoint (c : Curve) (tenor : ℤ) (v : ℚ) : Curve :=
  if lowerBoundIdx c.dates tenor < c.dates.length ∧
      c.dates.getD (lowerBoundIdx c.dates tenor) 0 = tenor then
    ⟨c.dates, c.vals.set (lowerBoundIdx c.dates tenor) v⟩
  else
    ⟨c.dates.insertIdx (lowerBoundIdx c.dates tenor) tenor,
      c.vals.insertIdx (lowerBoundIdx c.dates tenor) v⟩

/-- `RateCurve::getRate` / `VolCurve::getVol` (Market.cpp): an empty
curve logs a warning to stderr and returns 0.0; a query at or before the
first knot returns the first value; at or after the last knot the last
value; at a stored date the stored value; otherwise linear interpolation
between the two bracketing knots on the serial-day axis. -/
def Curve.get (c : Curve) (tenor : ℤ) : ℚ :=
  if c.dates.isEmpty then 0
  else if tenor ≤ c.dates.headD 0 then c.vals.headD 0
  else if ¬ tenor < c.dates.getLastD 0 then c.vals.getLastD 0
  else if lowerBoundIdx c.dates tenor < c.dates.length ∧
      c.dates.getD (lowerBoundIdx c.dates tenor) 0 = tenor then
    c.vals.getD (lowerBoundIdx c.dates tenor) 0
  else if lowerBoundIdx c.dates tenor = 0 then c.vals.headD 0
  else
    linearInterpolate (c.dates.getD (lowerBoundIdx c.dates tenor - 1) 0 : ℚ)
      (c.vals.getD (lowerBoundIdx c.dates tenor - 1) 0)
      (c.dates.getD (lowerBoundIdx c.dates tenor) 0 : ℚ)
      (c.vals.getD (lowerBoundIdx c.dates tenor) 0) (tenor : ℚ)

/-- A sequence of `addRate`/`addVol` calls starting from a
default-constructed empty curve. -/
def applyPoints (ops : List (ℤ × ℚ)) : Curve :=
  ops.foldl (fun c q => c.addPoint q.1 q.2) emptyCurve

/-- `RateCurve::shock` / `VolCurve::shock` (Market.cpp): add
`shockValue` to every stored value. -/
def Curve.shock (c : Curve) (s : ℚ) : Curve := ⟨c.dates, c.vals.map (· + s)⟩

/-- `RateCurve::isEmpty` / `VolCurve::isEmpty` (Market.h). -/
def Curve.isEmpty (c : Curve) : Bool := c.dates.isEmpty

/-- Curve well-formedness: strictly increasing knot dates and aligned
value vector — the invariant the store maintains. -/
def Curve.wf (c : Curve) : Prop :=
  c.dates.Pairwise (· < ·) ∧ c.dates.length = c.vals.length

instance (c : Curve) : Decidable c.wf := by unfold Curve.wf; infer_instance

/-! ## Market snapshot as the pricers observe it

Pricer.cpp reads a market only through `asOf`, `getStockPrice`,
`getCurve` and `getVolCurve` (Market.h's by-value getters, which return
a default-constructed empty curve and log an error when the name is
absent).  `MarketView` is that observable content. -/

/-- The observable content of a `Market`: as-of date, named rate curves,
named vol curves and named spot prices. -/
structure MarketView where
  asOf : ℤ
  curves : List (String × Curve)
  vols : List (String × Curve)
  stocks : List (String × ℚ)
  deriving Repr, DecidableEq, Inhabited

/-- `Market::getStockPrice` (Market.h): the stored price, or 0.0 with an
error log when the name is absent. -/
def MarketView.getStockPrice (m : MarketView) (nm : String) : ℚ :=
  match m.stocks.find? (fun q => q.1 = nm) with
  | some q => q.2
  | none => 0

/-- `Market::getCurve` (Market.h, by-value getter): the stored rate
curve, or a default-constructed empty curve when the name is absent. -/
def MarketView.getCurve (m : MarketView) (nm : String) : Curve :=
  match m.curves.find? (fun q => q.1 = nm) with
  | some q => q.2
  | none => emptyCurve

/-- `Market::getVolCurve` (Market.h, by-value getter): the stored vol
curve, or a default-constructed empty curve when the name is absent. -/
def MarketView.getVolCurve (m : MarketView) (nm : String) : Curve :=
  match m.vols.find? (fun q => q.1 = nm) with
  | some q => q.2
  | none => emptyCurve

/-! ## Instruments (Payoff.h, Types.h, EuropeanTrade.cpp, AmericanTrade.cpp) -/

/-- Modelled from the spec: the option-kind enumeration `OptionType`.
Its declaring header `Types.h` is not under src/; the constructors are
exactly the cases `PAYOFF::VanillaOption` (Payoff.h) switches on. -/
inductive OptionType
  | Call
  | Put
  | BinaryCall
  | BinaryPut
  deriving Repr, DecidableEq

/-- `PAYOFF::VanillaOption` (Payoff.h). -/
def vanillaOption (optType : OptionType) (strike S : ℚ) : ℚ :=
  match optType with
  | .Call => if S > strike then S - strike else 0
  | .Put => if S < strike then strike - S else 0
  | .BinaryCall => if S ≥ strike then 1 else 0
  | .BinaryPut => if S ≤ strike then 1 else 0

/-- The `TreeProduct` capability the tree pricers consume (TreeProduct.h
plus the `Trade` curve-name getters): underlying name, expiry date,
payoff, the early-exercise hook `ValueAtNode`, and the curve names the
risk engine asks for. -/
structure TreeProduct where
  underlying : String
  expiry : ℤ
  payoff : ℚ → ℚ
  valueAtNode : ℚ → ℚ → ℚ → ℚ
  rateCurveName : String
  volCurveName : String

/-- `EuropeanOption` as the tree pricer sees it (EuropeanTrade.cpp):
vanilla payoff and `ValueAtNode` returning the continuation value
unchanged.  The C++ constructor defaults are `discountCurveName =
"USD-SOFR"` and `volatilityCurveName = "VOL_CURVE_DEFAULT"`. -/
def europeanOption (optType : OptionType) (strike : ℚ) (expiry : ℤ)
    (underlying rateCurveName volCurveName : String) : TreeProduct where
  underlying := underlying
  expiry := expiry
  payoff := fun S => vanillaOption optType strike S
  valueAtNode := fun _ _ continuation => continuation
  rateCurveName := rateCurveName
  volCurveName := volCurveName

/-- `AmericanOption` as the tree pricer sees it (AmericanTrade.cpp):
vanilla payoff and `ValueAtNode` returning
`max(Payoff(S), continuation)`. -/
def americanOption (optType : OptionType) (strike : ℚ) (expiry : ℤ)
    (underlying rateCurveName volCurveName : String) : TreeProduct where
  underlying := underlying
  expiry := expiry
  payoff := fun S => vanillaOption optType strike S
  valueAtNode := fun S _ continuation => max (vanillaOption optType strike S) continuation
  rateCurveName := rateCurveName
  volCurveName := volCurveName

/-! ## Binomial tree pricers (Pricer.cpp)

The tree-pricer class header (declaring `nTimeSteps`, `states`,
`fixedRiskFreeRate_`, `GetSpot`, `GetProbUp`, `GetProbDown`) is not
under src/; only Pricer.cpp's definitions and callers are.  `nTimeSteps`
and `fixedRiskFreeRate_` are modelled as explicit parameters, and
`GetSpot` is modelled from the spec below. -/

/-- The literal `1e-14` of Pricer.cpp, as an exact rational. -/
def eps14 : ℚ := 1 / 10 ^ 14

/-- The literal `1e-6` of Pricer.cpp, as an exact rational. -/
def eps6 : ℚ := 1 / 10 ^ 6

/-- The lattice parameters a `ModelSetup` call stores in the pricer:
step size `dT_`, `currentSpot`, factors `u`/`d`, probability `p` and the
per-step discount factor `Df_`. -/
structure TreeParams where
  dT : ℚ
  spot : ℚ
  u : ℚ
  d : ℚ
  p : ℚ
  df : ℚ
  deriving Repr, DecidableEq

/-- The two sequential clamping assignments of every `ModelSetup`
(Pricer.cpp): `if (p < 0.0) p = 0.0; if (p > 1.0) p = 1.0;`. -/
def clamp01 (p : ℚ) : ℚ :=
  if (if p < 0 then (0 : ℚ) else p) > 1 then 1
  else if p < 0 then 0 else p

/-- The risk-neutral-probability computation that appears verbatim in
`BinomialTreePricer::ModelSetup`, `CRRBinomialTreePricer::ModelSetup`
(both overloads) and `JRRNBinomialTreePricer::ModelSetup` (Pricer.cpp):
when `|u-d| < 1e-14`, take `p = 1` if `r >= 0`, else `0`, overridden to
`0.5` when both `|r| < 1e-14` and `|sigma| < 1e-14`; otherwise the CRR
quotient `(exp(r*dt)-d)/(u-d)`; finally clamp into `[0,1]`. -/
def riskNeutralP (rexp : ℚ → ℚ) (u d r sigma dt : ℚ) : ℚ :=
  clamp01
    (if |u - d| < eps14 then
      if |r| < eps14 ∧ |sigma| < eps14 then 1 / 2
      else if r ≥ 0 then 1 else 0
    else (rexp (r * dt) - d) / (u - d))

/-- `BinomialTreePricer::ModelSetup(double S0, double sigma, double r,
double dt)` (Pricer.cpp, identical to the four-argument
`CRRBinomialTreePricer::ModelSetup`): `u = exp(sigma*sqrt(dt))`,
`d = exp(-sigma*sqrt(dt))`, the clamped risk-neutral probability, and
the per-step discount factor `exp(-r*dt)`. -/
def btModelSetup (rexp rsqrt : ℚ → ℚ) (S0 sigma r dt : ℚ) : TreeParams :=
  { dT := dt, spot := S0,
    u := rexp (sigma * rsqrt dt),
    d := rexp (-(sigma * rsqrt dt)),
    p := riskNeutralP rexp (rexp (sigma * rsqrt dt)) (rexp (-(sigma * rsqrt dt))) r sigma dt,
    df := rexp (-r * dt) }

/-- Modelled from the spec: the node-spot helper `GetSpot(ti, si)` of
the tree pricers, whose declaring header is not under src/.  Spec §4.3
gives node spots `S0 * u^j * d^(i-j)`; in the index convention of the
Pricer.cpp loops (where `states[i]` carries the up-probability weight
`GetProbUp()`), node `si` of step `ti` has seen `ti - si` up moves:
`S0 * u^(ti-si) * d^si`. -/
def getSpot (S0 u d : ℚ) (ti si : ℕ) : ℚ := S0 * u ^ (ti - si) * d ^ si

/-- `CRRBinomialTreePricer::ModelSetup(const Market&, const
TreeProduct&)` (Pricer.cpp): read the spot, the vol from the curve named
"SPX_Vol_Curve" and (unless `fixedRiskFreeRate_ >= 0`) the rate from the
curve named "USD_Yield_Curve", both at the product's expiry; compute
`dT_`, `u`, `d`, the clamped `p` and `Df_`. -/
def crrModelSetup (rexp rsqrt : ℚ → ℚ) (nTimeSteps : ℤ) (fixedRiskFreeRate : ℚ)
    (mkt : MarketView) (product : TreeProduct) : TreeParams :=
  let S0 := mkt.getStockPrice product.underlying
  let sigma := (mkt.getVolCurve "SPX_Vol_Curve").get product.expiry
  let T := yearsBetween product.expiry mkt.asOf
  let dT : ℚ := if nTimeSteps > 0 ∧ T ≥ 0 then T / (nTimeSteps : ℚ) else 0
  let u := rexp (sigma * rsqrt dT)
  let d := rexp (-(sigma * rsqrt dT))
  let effectiveRate : ℚ :=
    if fixedRiskFreeRate ≥ 0 then fixedRiskFreeRate
    else
      let yieldCurve := mkt.getCurve "USD_Yield_Curve"
      if yieldCurve.isEmpty then 0 else yieldCurve.get product.expiry
  { dT := dT, spot := S0, u := u, d := d,
    p := riskNeutralP rexp u d effectiveRate sigma dT,
    df := rexp (-effectiveRate * dT) }

/-- Terminal layer of the tree loops (Pricer.cpp):
`states[i] = trade.Payoff(GetSpot(nTimeSteps, i))` for `i = 0..n`. -/
def terminalStates (payoff : ℚ → ℚ) (S0 u d : ℚ) (n : ℕ) : List ℚ :=
  (List.range (n + 1)).map fun i => payoff (getSpot S0 u d n i)

/-- One backward step `k` of the tree loops (Pricer.cpp): for
`i = 0..k`, `continuation = Df_*(states[i]*p + states[i+1]*(1-p))` and
`states[i] = trade.ValueAtNode(GetSpot(k,i), dt*k, continuation)`.  The
C++ loop updates `states` in place, but slot `i` is read before being
written and slot `i+1` has not yet been written, so the in-place update
equals this map over the old array. -/
def stepBack (valueAtNode : ℚ → ℚ → ℚ → ℚ) (S0 u d p df dt : ℚ) (k : ℕ)
    (states : List ℚ) : List ℚ :=
  (List.range (k + 1)).map fun i =>
    valueAtNode (getSpot S0 u d k i) (dt * (k : ℚ))
      (df * (states.getD i 0 * p + states.getD (i + 1) 0 * (1 - p)))

/-- The backward loop `for (k = nTimeSteps-1; k >= 0; k--)` of the tree
loops (Pricer.cpp): `backInduct ... n` applies `stepBack` for
`k = n-1` down to `0`. -/
def backInduct (valueAtNode : ℚ → ℚ → ℚ → ℚ) (S0 u d p df dt : ℚ) :
    ℕ → List ℚ → List ℚ
  | 0, states => states
  | k + 1, states =>
    backInduct valueAtNode S0 u d p df dt k
      (stepBack valueAtNode S0 u d p df dt k states)

/-- `CRRBinomialTreePricer::PriceTree` (Pricer.cpp): intrinsic payoff at
spot when `|T| < 1e-6` or `T < 0`; error (0.0) when `nTimeSteps <= 0`;
otherwise `ModelSetup` followed by the terminal layer and the backward
induction, returning `states[0]`. -/
def crrPriceTree (rexp rsqrt : ℚ → ℚ) (nTimeSteps : ℤ) (fixedRiskFreeRate : ℚ)
    (mkt : MarketView) (trade : TreeProduct) : ℚ :=
  let T := yearsBetween trade.expiry mkt.asOf
  if T < eps6 ∧ -eps6 < T then trade.payoff (mkt.getStockPrice trade.underlying)
  else if T < 0 then trade.payoff (mkt.getStockPrice trade.underlying)
  else if nTimeSteps ≤ 0 then 0
  else
    let dt := T / (nTimeSteps : ℚ)
    let P := crrModelSetup rexp rsqrt nTimeSteps fixedRiskFreeRate mkt trade
    let n := nTimeSteps.toNat
    (backInduct trade.valueAtNode P.spot P.u P.d P.p P.df dt n
      (terminalStates trade.payoff P.spot P.u P.d n)).headD 0

/-- `BinomialTreePricer::PriceTree` (Pricer.cpp): same early-expiry and
step-count guards; reads spot, the "SPX_Vol_Curve" vol and — unless
`fixedRiskFreeRate_ >= 0` — the "USD_Yield_Curve" rate (defaulting the
rate to 0.0 with a warning when that curve is missing or empty), calls
`ModelSetup(S, sigma, r, dt)` and runs the same two loops. -/
def btPriceTree (rexp rsqrt : ℚ → ℚ) (nTimeSteps : ℤ) (fixedRiskFreeRate : ℚ)
    (mkt : MarketView) (trade : TreeProduct) : ℚ :=
  let T := yearsBetween trade.expiry mkt.asOf
  if T < eps6 ∧ -eps6 < T then trade.payoff (mkt.getStockPrice trade.underlying)
  else if T < 0 then trade.payoff (mkt.getStockPrice trade.underlying)
  else if nTimeSteps ≤ 0 then 0
  else
    let dt := T / (nTimeSteps : ℚ)
    let S0 := mkt.getStockPrice trade.underlying
    let sigma := (mkt.getVolCurve "SPX_Vol_Curve").get trade.expiry
    let effectiveRate : ℚ :=
      if fixedRiskFreeRate ≥ 0 then fixedRiskFreeRate
      else
        let yieldCurve := mkt.getCurve "USD_Yield_Curve"
        if yieldCurve.isEmpty then 0 else yieldCurve.get trade.expiry
    let P := btModelSetup rexp rsqrt S0 sigma effectiveRate dt
    let n := nTimeSteps.toNat
    (backInduct trade.valueAtNode P.spot P.u P.d P.p P.df dt n
      (terminalStates trade.payoff P.spot P.u P.d n)).headD 0

/-! ## Markets with shared-pointer curves, decorators and the risk
engine (Market.cpp, MarketDecorators.h, RiskEngine.cpp)

Market.cpp's `Market` stores `shared_ptr<RateCurve>` / `shared_ptr<
VolCurve>` maps; `CurveDecorator`/`VolDecorator` mutate the pointees of
their own copies.  The pointer graph is modelled by an explicit heap of
curves addressed by allocation index; the copy constructor allocates
fresh cells. -/

/-- The heap of `shared_ptr` pointees: all allocated rate curves and vol
curves, addressed by index. -/
structure Heap where
  rcs : List Curve
  vcs : List Curve
  deriving Repr, DecidableEq

/-- A `Market` as stored by Market.cpp: as-of date, name-to-pointer maps
for rate curves (`curvesMap`) and vol curves (`volsMap`), and value maps
for stock and bond prices. -/
structure MarketH where
  asOf : ℤ
  curves : List (String × ℕ)
  vols : List (String × ℕ)
  stocks : List (String × ℚ)
  bonds : List (String × ℚ)
  deriving Repr, DecidableEq

/-- Fresh references for a copied curve map: entry `i` keeps its name
and points at heap cell `base + i`. -/
def freshRefs (base : ℕ) : List (String × ℕ) → List (String × ℕ)
  | [] => []
  | q :: rest => (q.1, base) :: freshRefs (base + 1) rest

/-- `Market::Market(const Market&)` (Market.cpp): deep copy — for every
curve entry allocate a fresh cell holding a copy of the pointee
(`make_shared<RateCurve>(*pair.second)`), likewise for vol curves;
stock and bond price maps are copied by value. -/
def copyMarket (h : Heap) (m : MarketH) : Heap × MarketH :=
  let contentsR := m.curves.map fun q => h.rcs.getD q.2 emptyCurve
  let contentsV := m.vols.map fun q => h.vcs.getD q.2 emptyCurve
  (⟨h.rcs ++ contentsR, h.vcs ++ contentsV⟩,
   ⟨m.asOf, freshRefs h.rcs.length m.curves, freshRefs h.vcs.length m.vols,
    m.stocks, m.bonds⟩)

/-- In-place `RateCurve::shock` through a pointer: overwrite heap rate
cell `i` with its shocked copy. -/
def Heap.shockR (h : Heap) (i : ℕ) (s : ℚ) : Heap :=
  ⟨h.rcs.set i ((h.rcs.getD i emptyCurve).shock s), h.vcs⟩

/-- In-place `VolCurve::shock` through a pointer: overwrite heap vol
cell `i` with its shocked copy. -/
def Heap.shockV (h : Heap) (i : ℕ) (s : ℚ) : Heap :=
  ⟨h.rcs, h.vcs.set i ((h.vcs.getD i emptyCurve).shock s)⟩

/-- The observable content of a stored market: resolve every curve
pointer through the heap.  (Bond prices are not part of the pricers'
observable surface; spot prices, curves and vols are.) -/
def MarketH.view (m : MarketH) (h : Heap) : MarketView :=
  ⟨m.asOf,
   m.curves.map fun q => (q.1, h.rcs.getD q.2 emptyCurve),
   m.vols.map fun q => (q.1, h.vcs.getD q.2 emptyCurve),
   m.stocks⟩

/-- Market/heap well-formedness: every pointer is a live heap cell, and
curve names are unique (they are `unordered_map` keys). -/
def MarketH.wf (m : MarketH) (h : Heap) : Prop :=
  (∀ q ∈ m.curves, q.2 < h.rcs.length) ∧ (∀ q ∈ m.vols, q.2 < h.vcs.length) ∧
    (m.curves.map Prod.fst).Nodup ∧ (m.vols.map Prod.fst).Nodup

/-- `CurveDecorator::CurveDecorator` (MarketDecorators.h): deep-copy the
original market twice (members `marketUp`, `marketDown`), then shock the
named rate curve of `marketUp` by `+shock_value` and the named rate
curve of `marketDown` by `-shock_value`, each through the non-const
`getCurve` pointer; a missing name only logs a warning. -/
def curveDecorator (h : Heap) (origMarket : MarketH) (marketId : String)
    (shockValue : ℚ) : Heap × MarketH × MarketH :=
  let c1 := copyMarket h origMarket
  let c2 := copyMarket c1.1 origMarket
  let mUp := c1.2
  let mDown := c2.2
  let h2 :=
    match mUp.curves.find? (fun q => q.1 = marketId) with
    | some q => c2.1.shockR q.2 shockValue
    | none => c2.1
  let h3 :=
    match mDown.curves.find? (fun q => q.1 = marketId) with
    | some q => h2.shockR q.2 (-shockValue)
    | none => h2
  (h3, mUp, mDown)

/-- `VolDecorator::VolDecorator` (MarketDecorators.h): the same
construction against the named vol curve. -/
def volDecorator (h : Heap) (origMarket : MarketH) (marketId : String)
    (shockValue : ℚ) : Heap × MarketH × MarketH :=
  let c1 := copyMarket h origMarket
  let c2 := copyMarket c1.1 origMarket
  let mUp := c1.2
  let mDown := c2.2
  let h2 :=
    match mUp.vols.find? (fun q => q.1 = marketId) with
    | some q => c2.1.shockV q.2 shockValue
    | none => c2.1
  let h3 :=
    match mDown.vols.find? (fun q => q.1 = marketId) with
    | some q => h2.shockV q.2 (-shockValue)
    | none => h2
  (h3, mUp, mDown)

/-- The part of the `Trade` interface RiskEngine.cpp reads: the trade's
named rate and vol curves (`getRateCurveName` / `getVolCurveName`). -/
structure TradeCap where
  rateCurveName : String
  volCurveName : String
  deriving Repr, DecidableEq

/-- `RiskEngine::computeDv01` (RiskEngine.cpp): empty result when the
trade names no rate curve or the named curve is absent from the original
market; otherwise build a `CurveDecorator` (two shocked deep copies),
price the trade against the up and down markets, and return the single
entry `curve name ↦ (pv_up - pv_down)/2`.  The pricer is modelled as a
function `price` from observable market content to a value, the trade
being fixed; the unused `pv_original` reference valuation is omitted.
The constructor default for the shock amount is `0.0001` (RiskEngine.h).
Returns the final heap together with the result map. -/
def computeDv01 (h : Heap) (trade : TradeCap) (originalMarket : MarketH)
    (price : MarketView → ℚ) (defaultCurveShockAmount : ℚ) :
    Heap × List (String × ℚ) :=
  let name := trade.rateCurveName
  if name = "" then (h, [])
  else if (originalMarket.curves.find? (fun q => q.1 = name)).isNone then (h, [])
  else
    let dec := curveDecorator h originalMarket name defaultCurveShockAmount
    let pvUp := price (dec.2.1.view dec.1)
    let pvDown := price (dec.2.2.view dec.1)
    (dec.1, [(name, (pvUp - pvDown) / 2)])

/-- `RiskEngine::computeVega` (RiskEngine.cpp): structurally identical
to `computeDv01` against the trade's named vol curve, via a
`VolDecorator`.  The constructor default for the shock amount is `0.01`
(RiskEngine.h). -/
def computeVega (h : Heap) (trade : TradeCap) (originalMarket : MarketH)
    (price : MarketView → ℚ) (defaultVolShockAmount : ℚ) :
    Heap × List (String × ℚ) :=
  let name := trade.volCurveName
  if name = "" then (h, [])
  else if (originalMarket.vols.find? (fun q => q.1 = name)).isNone then (h, [])
  else
    let dec := volDecorator h originalMarket name defaultVolShockAmount
    let pvUp := price (dec.2.1.view dec.1)
    let pvDown := price (dec.2.2.view dec.1)
    (dec.1, [(name, (pvUp - pvDown) / 2)])

/-- The `RiskEngine` constructor default `default_curve_shock_abs =
0.0001` (RiskEngine.h). -/
def defaultCurveShockAbs : ℚ := 1 / 10 ^ 4

/-- The `RiskEngine` constructor default `default_vol_shock_abs = 0.01`
(RiskEngine.h). -/
def defaultVolShockAbs : ℚ := 1 / 100

/-- Spec-side description (claim C3) of "the market with the named rate
curve parallel-shifted by `s`": the named rate-curve entry is shocked,
everything else is unchanged. -/
def MarketView.shockRateCurve (v : MarketView) (nm : String) (s : ℚ) : MarketView :=
  { v with curves := v.curves.map fun q => if q.1 = nm then (q.1, q.2.shock s) else q }

/-- Spec-side description of "the market with the named vol curve
parallel-shifted by `s`". -/
def MarketView.shockVolCurve (v : MarketView) (nm : String) (s : ℚ) : MarketView :=
  { v with vols := v.vols.map fun q => if q.1 = nm then (q.1, q.2.shock s) else q }

/-! ## List utilities -/

theorem getD_append_left {α} (l l' : List α) (i : ℕ) (d : α) (h : i < l.length) :
    (l ++ l').getD i d = l.getD i d := by
  simp [List.getD_eq_getElem?_getD, List.getElem?_append, h]

theorem getD_append_right {α} (l l' : List α) (j : ℕ) (d : α) :
    (l ++ l').getD (l.length + j) d = l'.getD j d := by
  have : ¬ l.length + j < l.length := by omega
  simp [List.getD_eq_getElem?_getD, List.getElem?_append, this]

theorem getD_set_ne {α} (l : List α) (i j : ℕ) (a d : α) (h : i ≠ j) :
    (l.set i a).getD j d = l.getD j d := by
  simp [List.getD_eq_getElem?_getD, List.getElem?_set_ne h]

theorem getD_set_self {α} (l : List α) (i : ℕ) (a d : α) (h : i < l.length) :
    (l.set i a).getD i d = a := by
  simp [List.getD_eq_getElem?_getD, List.getElem?_set_self, h]

theorem getD_map_lt {α β} (l : List α) (f : α → β) (i : ℕ) (d : α) (d' : β)
    (h : i < l.length) : (l.map f).getD i d' = f (l.getD i d) := by
  simp [List.getD_eq_getElem?_getD, List.getElem?_map, List.getElem?_eq_getElem h]

theorem getD_eq_getElem {α} (l : List α) (i : ℕ) (d : α) (h : i < l.length) :
    l.getD i d = l[i] := by
  simp [List.getD_eq_getElem?_getD, List.getElem?_eq_getElem h]

/-! ## lower_bound on a sorted knot list -/

theorem lowerBoundIdx_nil (x : ℤ) : lowerBoundIdx [] x = 0 := rfl

theorem lowerBoundIdx_cons (a : ℤ) (l : List ℤ) (x : ℤ) :
    lowerBoundIdx (a :: l) x =
      if a < x then lowerBoundIdx l x + 1 else 0 := by
  by_cases h : a < x <;> simp [lowerBoundIdx, List.takeWhile_cons, h]

theorem lowerBoundIdx_le_length (l : List ℤ) (x : ℤ) :
    lowerBoundIdx l x ≤ l.length :=
  le_trans (List.IsPrefix.length_le (List.takeWhile_prefix _)) (le_refl _)

/-- On a strictly sorted list, `lower_bound` at a stored element returns
its index. -/
theorem lowerBoundIdx_at_getElem (l : List ℤ) (hs : l.Pairwise (· < ·))
    (i : ℕ) (h : i < l.length) : lowerBoundIdx l l[i] = i := by
  induction l generalizing i with
  | nil => simp at h
  | cons a t ih =>
    rcases List.pairwise_cons.mp hs with ⟨ha, ht⟩
    cases i with
    | zero =>
      simp [lowerBoundIdx_cons]
    | succ j =>
      have hj : j < t.length := by simpa using h
      have hg : (a :: t)[j + 1] = t[j] := by simp
      have hat : a < t[j] := ha _ (t.getElem_mem hj)
      rw [hg, lowerBoundIdx_cons, if_pos hat, ih ht j hj]

/-- On a strictly sorted list, `lower_bound` at a value strictly between
two adjacent elements returns the upper index. -/
theorem lowerBoundIdx_between (l : List ℤ) (hs : l.Pairwise (· < ·))
    (x : ℤ) (i : ℕ) (h : i + 1 < l.length)
    (hx0 : l[i] < x) (hx1 : x < l[i + 1]) : lowerBoundIdx l x = i + 1 := by
  induction l generalizing i with
  | nil => simp at h
  | cons a t ih =>
    rcases List.pairwise_cons.mp hs with ⟨ha, ht⟩
    cases i with
    | zero =>
      have ht1 : 0 < t.length := by simpa using h
      have hx1' : x < t[0] := by simpa using hx1
      have hx0' : a < x := by simpa using hx0
      rw [lowerBoundIdx_cons, if_pos hx0']
      rcases t with _ | ⟨b, t'⟩
      · simp at ht1
      · have : ¬ b < x := by
          have : x < b := by simpa using hx1'
          omega
        simp [lowerBoundIdx_cons, this]
    | succ j =>
      have hj : j + 1 < t.length := by simpa using h
      have hx0' : t[j] < x := by simpa using hx0
      have hx1' : x < t[j + 1] := by simpa using hx1
      have hax : a < x :=
        lt_trans (ha _ (t.getElem_mem (by omega))) hx0'
      rw [lowerBoundIdx_cons, if_pos hax, ih ht j hj hx0' hx1']

/-- Monotonicity of a strictly sorted list's entries. -/
theorem sorted_getElem_le (l : List ℤ) (hs : l.Pairwise (· < ·)) (i j : ℕ)
    (hij : i ≤ j) (hj : j < l.length) : l.get ⟨i, by omega⟩ ≤ l[j] := by
  rcases lt_or_eq_of_le hij with hlt | rfl
  · exact le_of_lt ((List.pairwise_iff_getElem.mp hs) i j (by omega) hj hlt)
  · exact le_refl _

/-! ## C4: curve lookup — flat ends, exact knots, linear interpolation -/

/-- On a well-formed curve, `get` at a stored knot returns exactly the
stored value. -/
theorem curve_get_at_knot (c : Curve) (hs : c.dates.Pairwise (· < ·))
    (hlen : c.dates.length = c.vals.length) (i : ℕ) (hi : i < c.dates.length) :
    c.get c.dates[i] = c.vals.get ⟨i, by omega⟩ := by
  have hne : 0 < c.dates.length := by omega
  have hvne : 0 < c.vals.length := by omega
  have hDne : ¬ c.dates.isEmpty = true := by
    rw [List.isEmpty_iff_length_eq_zero]
    omega
  have hhead : c.dates.headD 0 = c.dates[0] := by
    rw [List.headD_eq_head?, List.head?_eq_getElem?,
      List.getElem?_eq_getElem hne]
    rfl
  have hvhead : c.vals.headD 0 = c.vals.get ⟨0, by omega⟩ := by
    rw [List.headD_eq_head?, List.head?_eq_getElem?,
      List.getElem?_eq_getElem hvne]
    rfl
  have hlast : c.dates.getLastD 0 = c.dates.get ⟨c.dates.length - 1, by omega⟩ := by
    rw [List.getLastD_eq_getLast?, List.getLast?_eq_getElem?,
      List.getElem?_eq_getElem (by omega : c.dates.length - 1 < c.dates.length)]
    rfl
  have hvlast : c.vals.getLastD 0 = c.vals.get ⟨c.vals.length - 1, by omega⟩ := by
    rw [List.getLastD_eq_getLast?, List.getLast?_eq_getElem?,
      List.getElem?_eq_getElem (by omega : c.vals.length - 1 < c.vals.length)]
    rfl
  rcases eq_or_ne i 0 with rfl | hi0
  · unfold Curve.get
    rw [if_neg hDne, if_pos (le_of_eq hhead.symm)]
    exact hvhead
  · rcases eq_or_ne i (c.dates.length - 1) with hilast | hiMid
    · unfold Curve.get
      have hfirst : ¬ c.dates[i] ≤ c.dates.headD 0 := by
        rw [hhead]
        have := (List.pairwise_iff_getElem.mp hs) 0 i (by omega) hi (by omega)
        omega
      have hlt : ¬ c.dates[i] < c.dates.getLastD 0 := by
        rw [hlast]
        have : c.dates[i] = c.dates.get ⟨c.dates.length - 1, by omega⟩ := by
          simp only [List.get_eq_getElem]
          congr 1
        rw [this]
        simp only [List.get_eq_getElem]
        omega
      rw [if_neg hDne, if_neg hfirst, if_pos hlt, hvlast]
      subst hilast
      congr 2
      omega
    · unfold Curve.get
      have hlbi : lowerBoundIdx c.dates c.dates[i] = i :=
        lowerBoundIdx_at_getElem c.dates hs i hi
      have hfirst : ¬ c.dates[i] ≤ c.dates.headD 0 := by
        rw [hhead]
        have := (List.pairwise_iff_getElem.mp hs) 0 i (by omega) hi (by omega)
        omega
      have hlt : ¬ ¬ c.dates[i] < c.dates.getLastD 0 := by
        rw [hlast]
        have := (List.pairwise_iff_getElem.mp hs) i (c.dates.length - 1)
          hi (by omega) (by omega)
        simp only [List.get_eq_getElem]
        omega
      rw [if_neg hDne, if_neg hfirst, if_neg hlt, hlbi,
        if_pos ⟨hi, by rw [getD_eq_getElem c.dates i 0 hi]⟩,
        getD_eq_getElem c.vals i 0 (by omega)]
      simp [List.get_eq_getElem]

set_option maxHeartbeats 1000000 in
/-- C4: on a non-empty well-formed curve, `get` returns the first stored
value at or before the first knot, the last stored value at or after the
last knot, the exact stored value at any stored date, and the linear
interpolation `y0 + (x-x0)*(y1-y0)/(x1-x0)` on serial-day coordinates
strictly between two adjacent knots. -/
theorem curve_get_flat_knot_interpolation (c : Curve)
    (hs : c.dates.Pairwise (· < ·)) (hlen : c.dates.length = c.vals.length)
    (hne : 0 < c.dates.length) :
    (∀ t : ℤ, t ≤ c.dates[0] → c.get t = c.vals.get ⟨0, by omega⟩) ∧
      (∀ t : ℤ, c.dates.get ⟨c.dates.length - 1, by omega⟩ ≤ t →
        c.get t = c.vals.get ⟨c.dates.length - 1, by omega⟩) ∧
      (∀ i : ℕ, ∀ hi : i < c.dates.length,
        c.get c.dates[i] = c.vals.get ⟨i, by omega⟩) ∧
      (∀ t : ℤ, ∀ i : ℕ, ∀ hi : i + 1 < c.dates.length,
        c.dates[i] < t → t < c.dates[i + 1] →
        c.get t = c.vals.get ⟨i, by omega⟩ +
          ((t : ℚ) - (c.dates[i] : ℚ)) *
            (c.vals.get ⟨i + 1, by omega⟩ - c.vals.get ⟨i, by omega⟩) /
            ((c.dates[i + 1] : ℚ) - (c.dates[i] : ℚ))) := by
  have hvne : 0 < c.vals.length := by omega
  have hDne : ¬ c.dates.isEmpty = true := by
    rw [List.isEmpty_iff_length_eq_zero]
    omega
  have hhead : c.dates.headD 0 = c.dates[0] := by
    rw [List.headD_eq_head?, List.head?_eq_getElem?,
      List.getElem?_eq_getElem hne]
    rfl
  have hvhead : c.vals.headD 0 = c.vals.get ⟨0, by omega⟩ := by
    rw [List.headD_eq_head?, List.head?_eq_getElem?,
      List.getElem?_eq_getElem hvne]
    rfl
  have hlast : c.dates.getLastD 0 = c.dates.get ⟨c.dates.length - 1, by omega⟩ := by
    rw [List.getLastD_eq_getLast?, List.getLast?_eq_getElem?,
      List.getElem?_eq_getElem (by omega : c.dates.length - 1 < c.dates.length)]
    rfl
  have hvlast : c.vals.getLastD 0 = c.vals.get ⟨c.vals.length - 1, by omega⟩ := by
    rw [List.getLastD_eq_getLast?, List.getLast?_eq_getElem?,
      List.getElem?_eq_getElem (by omega : c.vals.length - 1 < c.vals.length)]
    rfl
  refine ⟨?_, ?_, ?_, ?_⟩
  · -- at or before the first knot
    intro t ht
    unfold Curve.get
    rw [if_neg hDne, if_pos (by rw [hhead]; exact ht)]
    exact hvhead
  · -- at or after the last knot
    intro t ht
    unfold Curve.get
    rw [if_neg hDne]
    by_cases hth : t ≤ c.dates.headD 0
    · -- only possible when the list has a single knot
      rw [if_pos hth]
      have h0 : c.dates.length - 1 = 0 := by
        by_contra hne0
        have h2 : c.dates[0] < c.dates.get ⟨c.dates.length - 1, by omega⟩ :=
          (List.pairwise_iff_getElem.mp hs) 0 (c.dates.length - 1)
            (by omega) (by omega) (by omega)
        rw [hhead] at hth
        simp only [List.get_eq_getElem] at h2 ht
        omega
      rw [hvhead]
      congr 1
      omega
    · have hlt : ¬ t < c.dates.getLastD 0 := by
        rw [hlast]
        simp only [List.get_eq_getElem] at ht ⊢
        omega
      rw [if_neg hth, if_pos hlt, hvlast]
      congr 2
      omega
  · -- at a stored knot
    intro i hi
    exact curve_get_at_knot c hs hlen i hi
  · -- strictly between two adjacent knots
    intro t i hi h0 h1
    unfold Curve.get
    have hlbi : lowerBoundIdx c.dates t = i + 1 :=
      lowerBoundIdx_between c.dates hs t i hi h0 h1
    have hfirst : ¬ t ≤ c.dates.headD 0 := by
      rw [hhead]
      have : c.dates[0] ≤ c.dates[i] :=
        sorted_getElem_le c.dates hs 0 i (by omega) (by omega)
      omega
    have hltl : ¬ ¬ t < c.dates.getLastD 0 := by
      rw [hlast]
      have : c.dates[i + 1] ≤ c.dates.get ⟨c.dates.length - 1, by omega⟩ :=
        sorted_getElem_le c.dates hs (i + 1) (c.dates.length - 1)
          (by omega) (by omega)
      simp only [List.get_eq_getElem] at this ⊢
      omega
    rw [if_neg hDne, if_neg hfirst, if_neg hltl, hlbi,
      if_neg (by
        rintro ⟨hlt, heq⟩
        rw [getD_eq_getElem c.dates (i + 1) 0 hi] at heq
        omega),
      if_neg (by omega)]
    have e1 : i + 1 - 1 = i := by omega
    rw [e1, getD_eq_getElem c.dates i 0 (by omega),
      getD_eq_getElem c.dates (i + 1) 0 hi,
      getD_eq_getElem c.vals i 0 (by omega),
      getD_eq_getElem c.vals (i + 1) 0 (by omega)]
    unfold linearInterpolate
    have hii : c.dates[i] < c.dates[i + 1] :=
      (List.pairwise_iff_getElem.mp hs) i (i + 1) (by omega) hi (by omega)
    have hne01 : ¬ (c.dates[i + 1] : ℚ) = (c.dates[i] : ℚ) := by
      intro hcon
      have : c.dates[i + 1] = c.dates[i] := by exact_mod_cast hcon
      omega
    rw [if_neg hne01,
      if_neg (by
        have : (c.dates[i] : ℚ) < (t : ℚ) := by exact_mod_cast h0
        exact not_le.mpr this),
      if_neg (by
        have : (t : ℚ) < (c.dates[i + 1] : ℚ) := by exact_mod_cast h1
        exact not_le.mpr this)]
    simp [List.get_eq_getElem]

/-- Witness for C4: the curve with knots (10,1), (20,2), (40,4) — flat
before 10 and after 40, exact at 20, and interpolated to 3 at 30. -/
theorem curve_get_flat_knot_interpolation_witness :
    (([10, 20, 40] : List ℤ).Pairwise (· < ·) ∧
        ([10, 20, 40] : List ℤ).length = ([1, 2, 4] : List ℚ).length ∧
        0 < ([10, 20, 40] : List ℤ).length) ∧
      (⟨[10, 20, 40], [1, 2, 4]⟩ : Curve).get 5 = 1 ∧
      (⟨[10, 20, 40], [1, 2, 4]⟩ : Curve).get 50 = 4 ∧
      (⟨[10, 20, 40], [1, 2, 4]⟩ : Curve).get 20 = 2 ∧
      (⟨[10, 20, 40], [1, 2, 4]⟩ : Curve).get 30 = 3 := by
  have h := curve_get_flat_knot_interpolation ⟨[10, 20, 40], [1, 2, 4]⟩
    (by decide) (by decide) (by decide)
  refine ⟨⟨by decide, by decide, by decide⟩, ?_, ?_, ?_, ?_⟩
  · exact h.1 5 (by decide)
  · exact h.2.1 50 (by decide)
  · exact h.2.2.1 1 (by decide)
  · rw [h.2.2.2 30 1 (by decide) (by decide) (by decide)]
    norm_num

/-! ## C5: addPoint keeps the curve sorted, aligned and duplicate-free -/

/-- On a sorted list, every element surviving `dropWhile (· < x)` is at
least `x`. -/
theorem sorted_dropWhile_ge (l : List ℤ) (hs : l.Pairwise (· < ·)) (x b : ℤ)
    (hb : b ∈ l.dropWhile (fun y => y < x)) : x ≤ b := by
  induction l with
  | nil => simp at hb
  | cons a tl ih =>
    rcases List.pairwise_cons.mp hs with ⟨ha, htl⟩
    by_cases hax : a < x
    · rw [List.dropWhile_cons] at hb
      simp only [hax, decide_eq_true_eq, if_pos] at hb
      exact ih htl hb
    · rw [List.dropWhile_cons] at hb
      rw [if_neg (by simpa using hax)] at hb
      rcases List.mem_cons.mp hb with rfl | hb'
      · omega
      · have := ha b hb'
        omega

/-- Inserting at the `lower_bound` index splits the list at the
`takeWhile`/`dropWhile` boundary. -/
theorem insertIdx_lowerBoundIdx (l : List ℤ) (x : ℤ) :
    l.insertIdx (lowerBoundIdx l x) x =
      l.takeWhile (fun y => y < x) ++ x :: l.dropWhile (fun y => y < x) := by
  induction l with
  | nil => rfl
  | cons a tl ih =>
    by_cases hax : a < x
    · rw [lowerBoundIdx_cons, if_pos hax, List.insertIdx_succ_cons, ih,
        List.takeWhile_cons, List.dropWhile_cons]
      simp [hax]
    · rw [lowerBoundIdx_cons, if_neg hax, List.takeWhile_cons,
        List.dropWhile_cons]
      simp [hax]

/-- `addPoint` preserves strict sortedness and date/value alignment. -/
theorem addPoint_preserves_wf (c : Curve) (hs : c.dates.Pairwise (· < ·))
    (hlen : c.dates.length = c.vals.length) (t : ℤ) (v : ℚ) :
    (c.addPoint t v).dates.Pairwise (· < ·) ∧
      (c.addPoint t v).dates.length = (c.addPoint t v).vals.length := by
  unfold Curve.addPoint
  by_cases hcond : lowerBoundIdx c.dates t < c.dates.length ∧
      c.dates.getD (lowerBoundIdx c.dates t) 0 = t
  · rw [if_pos hcond]
    refine ⟨hs, ?_⟩
    simpa [List.length_set] using hlen
  · rw [if_neg hcond]
    constructor
    · show (c.dates.insertIdx (lowerBoundIdx c.dates t) t).Pairwise (· < ·)
      rw [insertIdx_lowerBoundIdx]
      have hsplit : (c.dates.takeWhile (fun y => y < t) ++
          c.dates.dropWhile (fun y => y < t)).Pairwise (· < ·) := by
        rw [List.takeWhile_append_dropWhile]
        exact hs
      rcases List.pairwise_append.mp hsplit with ⟨hT, hD, hTD⟩
      apply List.pairwise_append.mpr
      refine ⟨hT, ?_, ?_⟩
      · apply List.pairwise_cons.mpr
        refine ⟨?_, hD⟩
        intro b hb
        have hge := sorted_dropWhile_ge c.dates hs t b hb
        rcases eq_or_ne t b with rfl | hne
        · exfalso
          have hmem : t ∈ c.dates :=
            (List.dropWhile_sublist (fun y => y < t)).subset hb
          rcases List.mem_iff_getElem.mp hmem with ⟨j, hj, hjt⟩
          apply hcond
          have hlbi : lowerBoundIdx c.dates t = j := by
            rw [← hjt]
            exact lowerBoundIdx_at_getElem c.dates hs j hj
          refine ⟨by omega, ?_⟩
          rw [hlbi, getD_eq_getElem c.dates j 0 hj, hjt]
        · omega
      · intro a ha b hb
        rcases List.mem_cons.mp hb with rfl | hb'
        · have := List.mem_takeWhile_imp ha
          simpa using this
        · exact hTD a ha b hb'
    · show (c.dates.insertIdx (lowerBoundIdx c.dates t) t).length =
        (c.vals.insertIdx (lowerBoundIdx c.dates t) v).length
      have h1 : lowerBoundIdx c.dates t ≤ c.dates.length :=
        lowerBoundIdx_le_length c.dates t
      rw [List.length_insertIdx _ _ h1, List.length_insertIdx _ _ (by omega)]
      omega

/-- `addPoint` at an already stored date overwrites the stored value
without touching the knot sequence. -/
theorem addPoint_overwrite (c : Curve) (hs : c.dates.Pairwise (· < ·))
    (hlen : c.dates.length = c.vals.length) (t : ℤ) (v : ℚ)
    (hmem : t ∈ c.dates) :
    (c.addPoint t v).dates = c.dates ∧ (c.addPoint t v).get t = v := by
  rcases List.mem_iff_getElem.mp hmem with ⟨i, hi, rfl⟩
  have hlbi := lowerBoundIdx_at_getElem c.dates hs i hi
  have hcond : lowerBoundIdx c.dates c.dates[i] < c.dates.length ∧
      c.dates.getD (lowerBoundIdx c.dates c.dates[i]) 0 = c.dates[i] := by
    refine ⟨by omega, ?_⟩
    rw [hlbi, getD_eq_getElem c.dates i 0 hi]
  unfold Curve.addPoint
  rw [if_pos hcond, hlbi]
  refine ⟨rfl, ?_⟩
  have hknot : (⟨c.dates, c.vals.set i v⟩ : Curve).get c.dates[i] =
      (c.vals.set i v).get ⟨i, by rw [List.length_set]; omega⟩ :=
    curve_get_at_knot ⟨c.dates, c.vals.set i v⟩ hs
      (by simpa [List.length_set] using hlen) i hi
  rw [hknot]
  simp [List.get_eq_getElem, List.getElem_set]

/-- C5: every sequence of `addPoint` calls starting from the empty curve
keeps the date sequence strictly increasing (hence duplicate-free) and
aligned with the value vector; and on any well-formed curve, adding a
point at an already stored date overwrites the stored value — the knot
sequence is unchanged and `get` at that date returns the new value. -/
theorem addPoint_sorted_aligned_overwrite :
    (∀ ops : List (ℤ × ℚ),
        (applyPoints ops).dates.Pairwise (· < ·) ∧
          (applyPoints ops).dates.Nodup ∧
          (applyPoints ops).dates.length = (applyPoints ops).vals.length) ∧
      (∀ c : Curve, c.dates.Pairwise (· < ·) →
        c.dates.length = c.vals.length → ∀ t : ℤ, ∀ v : ℚ,
        ((c.addPoint t v).dates.Pairwise (· < ·) ∧
            (c.addPoint t v).dates.length = (c.addPoint t v).vals.length) ∧
          (t ∈ c.dates →
            (c.addPoint t v).dates = c.dates ∧ (c.addPoint t v).get t = v)) := by
  constructor
  · have key : ∀ (ops : List (ℤ × ℚ)) (c : Curve), c.dates.Pairwise (· < ·) →
        c.dates.length = c.vals.length →
        (ops.foldl (fun c q => c.addPoint q.1 q.2) c).dates.Pairwise (· < ·) ∧
          (ops.foldl (fun c q => c.addPoint q.1 q.2) c).dates.length =
            (ops.foldl (fun c q => c.addPoint q.1 q.2) c).vals.length := by
      intro ops
      induction ops with
      | nil => intro c hs hlen; exact ⟨hs, hlen⟩
      | cons q rest ih =>
        intro c hs hlen
        have h := addPoint_preserves_wf c hs hlen q.1 q.2
        exact ih _ h.1 h.2
    intro ops
    have h := key ops emptyCurve (by simp [emptyCurve]) (by simp [emptyCurve])
    exact ⟨h.1, h.1.imp ne_of_lt, h.2⟩
  · intro c hs hlen t v
    exact ⟨addPoint_preserves_wf c hs hlen t v,
      fun hmem => addPoint_overwrite c hs hlen t v hmem⟩

/-- Witness for C5: inserting (20,2), (10,1), then overwriting 20 with
5. -/
theorem addPoint_sorted_aligned_overwrite_witness :
    ((applyPoints [(20, 2), (10, 1), (20, 5)]).dates.Pairwise (· < ·) ∧
        (applyPoints [(20, 2), (10, 1), (20, 5)]).dates.Nodup ∧
        (applyPoints [(20, 2), (10, 1), (20, 5)]).dates.length =
          (applyPoints [(20, 2), (10, 1), (20, 5)]).vals.length) ∧
      (((⟨[10, 20], [1, 2]⟩ : Curve).dates.Pairwise (· < ·) ∧
          (⟨[10, 20], [1, 2]⟩ : Curve).dates.length =
            (⟨[10, 20], [1, 2]⟩ : Curve).vals.length ∧
          (20 : ℤ) ∈ (⟨[10, 20], [1, 2]⟩ : Curve).dates) ∧
        ((⟨[10, 20], [1, 2]⟩ : Curve).addPoint 20 5).dates =
            (⟨[10, 20], [1, 2]⟩ : Curve).dates ∧
          ((⟨[10, 20], [1, 2]⟩ : Curve).addPoint 20 5).get 20 = 5) :=
  ⟨addPoint_sorted_aligned_overwrite.1 [(20, 2), (10, 1), (20, 5)],
    ⟨⟨by decide, by decide, by decide⟩,
      (addPoint_sorted_aligned_overwrite.2 ⟨[10, 20], [1, 2]⟩ (by decide)
        (by decide) 20 5).2 (by decide)⟩⟩

/-! ## Pricer congruence helpers -/

/-- A curve with a single knot of value 0 returns 0 everywhere. -/
theorem flatZeroCurve_get (d t : ℤ) : (⟨[d], [0]⟩ : Curve).get t = 0 := by
  unfold Curve.get
  by_cases h : t ≤ d
  · simp [h]
  · have h2 : ¬ t < d := by omega
    simp [h, h2]

/-- `BinomialTreePricer::PriceTree` reads the market only through the
as-of date, the underlying's spot, the "SPX_Vol_Curve" vol curve and the
"USD_Yield_Curve" rate read. -/
theorem btPriceTree_congr (rexp rsqrt : ℚ → ℚ) (nTimeSteps : ℤ)
    (fixedRiskFreeRate : ℚ) (m1 m2 : MarketView) (trade : TreeProduct)
    (h1 : m1.asOf = m2.asOf)
    (h2 : m1.getStockPrice trade.underlying = m2.getStockPrice trade.underlying)
    (h3 : m1.getVolCurve "SPX_Vol_Curve" = m2.getVolCurve "SPX_Vol_Curve")
    (h4 : (if (m1.getCurve "USD_Yield_Curve").isEmpty then (0 : ℚ)
           else (m1.getCurve "USD_Yield_Curve").get trade.expiry) =
          (if (m2.getCurve "USD_Yield_Curve").isEmpty then (0 : ℚ)
           else (m2.getCurve "USD_Yield_Curve").get trade.expiry)) :
    btPriceTree rexp rsqrt nTimeSteps fixedRiskFreeRate m1 trade =
      btPriceTree rexp rsqrt nTimeSteps fixedRiskFreeRate m2 trade := by
  simp only [btPriceTree, h1, h2, h3, h4]

/-- `CRRBinomialTreePricer::PriceTree`/`ModelSetup` read the market only
through the same four observations. -/
theorem crrPriceTree_congr (rexp rsqrt : ℚ → ℚ) (nTimeSteps : ℤ)
    (fixedRiskFreeRate : ℚ) (m1 m2 : MarketView) (trade : TreeProduct)
    (h1 : m1.asOf = m2.asOf)
    (h2 : m1.getStockPrice trade.underlying = m2.getStockPrice trade.underlying)
    (h3 : m1.getVolCurve "SPX_Vol_Curve" = m2.getVolCurve "SPX_Vol_Curve")
    (h4 : (if (m1.getCurve "USD_Yield_Curve").isEmpty then (0 : ℚ)
           else (m1.getCurve "USD_Yield_Curve").get trade.expiry) =
          (if (m2.getCurve "USD_Yield_Curve").isEmpty then (0 : ℚ)
           else (m2.getCurve "USD_Yield_Curve").get trade.expiry)) :
    crrPriceTree rexp rsqrt nTimeSteps fixedRiskFreeRate m1 trade =
      crrPriceTree rexp rsqrt nTimeSteps fixedRiskFreeRate m2 trade := by
  simp only [crrPriceTree, crrModelSetup, h1, h2, h3, h4]

/-! ## C7: the risk-neutral probability is clamped into [0,1] -/

/-- The sequential clamp keeps its result at or above 0. -/
theorem clamp01_nonneg (p : ℚ) : 0 ≤ clamp01 p := by
  unfold clamp01
  rcases lt_or_le p 0 with h | h
  · rw [if_pos h]
    norm_num
  · rw [if_neg (not_lt.mpr h)]
    split_ifs <;> linarith

/-- The sequential clamp keeps its result at or below 1. -/
theorem clamp01_le_one (p : ℚ) : clamp01 p ≤ 1 := by
  unfold clamp01
  rcases lt_or_le p 0 with h | h
  · rw [if_pos h]
    norm_num
  · rw [if_neg (not_lt.mpr h)]
    split_ifs <;> linarith

/-- The sequential clamp is the clamp into `[0,1]`. -/
theorem clamp01_eq_max_min (p : ℚ) : clamp01 p = max 0 (min 1 p) := by
  unfold clamp01
  rcases lt_or_le p 0 with h | h
  · simp only [h, if_true, if_pos h]
    rw [if_neg (by norm_num), min_eq_right (by linarith),
      max_eq_left (by linarith)]
  · rw [if_neg (not_lt.mpr h)]
    rcases le_or_lt p 1 with h1 | h1
    · rw [if_neg (not_lt.mpr h1), min_eq_right h1, max_eq_right h]
    · rw [if_pos h1, min_eq_left (le_of_lt h1), max_eq_right (by norm_num)]

/-- The clamped probability is never negative (helper shared by the
tree-pricer theorems). -/
theorem riskNeutralP_nonneg (rexp : ℚ → ℚ) (u d r sigma dt : ℚ) :
    0 ≤ riskNeutralP rexp u d r sigma dt :=
  clamp01_nonneg _

/-- The clamped probability never exceeds 1 (helper shared by the
tree-pricer theorems). -/
theorem riskNeutralP_le_one (rexp : ℚ → ℚ) (u d r sigma dt : ℚ) :
    riskNeutralP rexp u d r sigma dt ≤ 1 :=
  clamp01_le_one _

/-- C7 counterexample: in the degenerate branch the code tests `r >= 0`,
not "per-step accrual at least d".  With `sigma = 8e-15`, `r = -1e-14`,
`dt = 1/4` (and second-order rational models of `exp` and `sqrt`), the
branch is taken (`|u-d| = 8e-15 < 1e-14`), the 0.5 override does not
apply (`|r|` is not below 1e-14), and the per-step accrual `exp(r*dt)`
is at least `d` — so the claim dictates `p = 1` — yet `ModelSetup`
computes `p = 0`. -/
theorem riskNeutralP_degenerate_sign_not_accrual :
    |(btModelSetup (fun x => 1 + x + x ^ 2 / 2)
        (fun x => if x = 1 / 4 then 1 / 2 else x) 100 (8 / 10 ^ 15)
        (-(1 / 10 ^ 14)) (1 / 4)).u -
      (btModelSetup (fun x => 1 + x + x ^ 2 / 2)
        (fun x => if x = 1 / 4 then 1 / 2 else x) 100 (8 / 10 ^ 15)
        (-(1 / 10 ^ 14)) (1 / 4)).d| < eps14 ∧
    ¬ (|(-(1 / 10 ^ 14) : ℚ)| < eps14 ∧ |(8 / 10 ^ 15 : ℚ)| < eps14) ∧
    (btModelSetup (fun x => 1 + x + x ^ 2 / 2)
        (fun x => if x = 1 / 4 then 1 / 2 else x) 100 (8 / 10 ^ 15)
        (-(1 / 10 ^ 14)) (1 / 4)).d ≤
      (fun x : ℚ => 1 + x + x ^ 2 / 2) (-(1 / 10 ^ 14) * (1 / 4)) ∧
    (btModelSetup (fun x => 1 + x + x ^ 2 / 2)
        (fun x => if x = 1 / 4 then 1 / 2 else x) 100 (8 / 10 ^ 15)
        (-(1 / 10 ^ 14)) (1 / 4)).p = 0 ∧ (0 : ℚ) ≠ 1 := by
  have hu : (btModelSetup (fun x => 1 + x + x ^ 2 / 2)
      (fun x => if x = 1 / 4 then 1 / 2 else x) 100 (8 / 10 ^ 15)
      (-(1 / 10 ^ 14)) (1 / 4)).u = 1 + 4 / 10 ^ 15 + 8 / 10 ^ 30 := by
    norm_num [btModelSetup]
  have hd : (btModelSetup (fun x => 1 + x + x ^ 2 / 2)
      (fun x => if x = 1 / 4 then 1 / 2 else x) 100 (8 / 10 ^ 15)
      (-(1 / 10 ^ 14)) (1 / 4)).d = 1 - 4 / 10 ^ 15 + 8 / 10 ^ 30 := by
    norm_num [btModelSetup]
  have habs : |(btModelSetup (fun x => 1 + x + x ^ 2 / 2)
      (fun x => if x = 1 / 4 then 1 / 2 else x) 100 (8 / 10 ^ 15)
      (-(1 / 10 ^ 14)) (1 / 4)).u -
      (btModelSetup (fun x => 1 + x + x ^ 2 / 2)
        (fun x => if x = 1 / 4 then 1 / 2 else x) 100 (8 / 10 ^ 15)
        (-(1 / 10 ^ 14)) (1 / 4)).d| < eps14 := by
    rw [hu, hd,
      show (1 + 4 / 10 ^ 15 + 8 / 10 ^ 30) - (1 - 4 / 10 ^ 15 + 8 / 10 ^ 30) =
        (8 / 10 ^ 15 : ℚ) by ring,
      abs_of_pos (show (0 : ℚ) < 8 / 10 ^ 15 by norm_num)]
    norm_num [eps14]
  have hnt : ¬ (|(-(1 / 10 ^ 14) : ℚ)| < eps14 ∧
      |(8 / 10 ^ 15 : ℚ)| < eps14) := by
    rw [not_and_or]
    left
    rw [abs_neg, abs_of_pos (show (0 : ℚ) < 1 / 10 ^ 14 by norm_num)]
    norm_num [eps14]
  refine ⟨habs, hnt, ?_, ?_, by norm_num⟩
  · rw [hd]
    norm_num
  · have hp : (btModelSetup (fun x => 1 + x + x ^ 2 / 2)
        (fun x => if x = 1 / 4 then 1 / 2 else x) 100 (8 / 10 ^ 15)
        (-(1 / 10 ^ 14)) (1 / 4)).p =
        riskNeutralP (fun x => 1 + x + x ^ 2 / 2)
          (btModelSetup (fun x => 1 + x + x ^ 2 / 2)
            (fun x => if x = 1 / 4 then 1 / 2 else x) 100 (8 / 10 ^ 15)
            (-(1 / 10 ^ 14)) (1 / 4)).u
          (btModelSetup (fun x => 1 + x + x ^ 2 / 2)
            (fun x => if x = 1 / 4 then 1 / 2 else x) 100 (8 / 10 ^ 15)
            (-(1 / 10 ^ 14)) (1 / 4)).d
          (-(1 / 10 ^ 14)) (8 / 10 ^ 15) (1 / 4) := rfl
    rw [hp]
    unfold riskNeutralP
    rw [if_pos habs, if_neg hnt, if_neg (by norm_num)]
    unfold clamp01
    norm_num


/-- C7 (amended): the computed risk-neutral probability always lies in
[0,1]; in the degenerate branch (`|u-d| < 1e-14`) it is 0.5 when both
`|r|` and `|sigma|` are below 1e-14, else 1 when `r >= 0` (the sign of
the rate — the deterministic-drift limit with `d -> 1`) and 0 otherwise,
with no division by `u-d`; in all other cases it is the quotient
`(exp(r*dt)-d)/(u-d)` clamped into [0,1], and the clamp is not an
error. -/
theorem riskNeutralP_in_unit_interval (rexp : ℚ → ℚ) (u d r sigma dt : ℚ) :
    (0 ≤ riskNeutralP rexp u d r sigma dt ∧
        riskNeutralP rexp u d r sigma dt ≤ 1) ∧
      (|u - d| < eps14 →
        riskNeutralP rexp u d r sigma dt =
          if |r| < eps14 ∧ |sigma| < eps14 then 1 / 2
          else if 0 ≤ r then 1 else 0) ∧
      (¬ |u - d| < eps14 →
        riskNeutralP rexp u d r sigma dt =
          max 0 (min 1 ((rexp (r * dt) - d) / (u - d)))) := by
  refine ⟨⟨riskNeutralP_nonneg rexp u d r sigma dt,
    riskNeutralP_le_one rexp u d r sigma dt⟩, ?_, ?_⟩
  · intro hdeg
    unfold riskNeutralP
    rw [if_pos hdeg]
    split_ifs with h1 h2
    · show clamp01 (1 / 2) = 1 / 2
      unfold clamp01
      norm_num
    · show clamp01 1 = 1
      unfold clamp01
      norm_num
    · show clamp01 0 = 0
      unfold clamp01
      norm_num
  · intro hdeg
    unfold riskNeutralP
    rw [if_neg hdeg]
    exact clamp01_eq_max_min _

/-- Witness for C7 (amended): the degenerate branch at `u = d = 1`,
`r = 1`, and the clamped quotient at `u = 2`, `d = 1/2`. -/
theorem riskNeutralP_in_unit_interval_witness :
    (|(1 : ℚ) - 1| < eps14 ∧ ¬ |(2 : ℚ) - 1 / 2| < eps14) ∧
      riskNeutralP (fun _ => 5) 1 1 1 1 1 =
        (if |(1 : ℚ)| < eps14 ∧ |(1 : ℚ)| < eps14 then 1 / 2
          else if (0 : ℚ) ≤ 1 then 1 else 0) ∧
      riskNeutralP (fun _ => 5) 2 (1 / 2) 1 1 1 =
        max 0 (min 1 (((fun _ : ℚ => (5 : ℚ)) ((1 : ℚ) * 1) - 1 / 2) / (2 - 1 / 2))) :=
  ⟨⟨by
      rw [show ((1 : ℚ) - 1) = 0 by norm_num, abs_zero]
      norm_num [eps14],
    by
      rw [show ((2 : ℚ) - 1 / 2) = 3 / 2 by norm_num,
        abs_of_pos (show (0 : ℚ) < 3 / 2 by norm_num)]
      norm_num [eps14]⟩,
    (riskNeutralP_in_unit_interval (fun _ => 5) 1 1 1 1 1).2.1
      (by
        rw [show ((1 : ℚ) - 1) = 0 by norm_num, abs_zero]
        norm_num [eps14]),
    (riskNeutralP_in_unit_interval (fun _ => 5) 2 (1 / 2) 1 1 1).2.2
      (by
        rw [show ((2 : ℚ) - 1 / 2) = 3 / 2 by norm_num,
          abs_of_pos (show (0 : ℚ) < 3 / 2 by norm_num)]
        norm_num [eps14])⟩

/-! ## Heap and decorator lemmas (for the risk-engine claims) -/

theorem freshRefs_length (base : ℕ) (l : List (String × ℕ)) :
    (freshRefs base l).length = l.length := by
  induction l generalizing base with
  | nil => rfl
  | cons q t ih => simp [freshRefs, ih]

theorem freshRefs_getElem (base : ℕ) (l : List (String × ℕ)) (i : ℕ)
    (hi : i < l.length) (hi2 : i < (freshRefs base l).length) :
    (freshRefs base l)[i] = (l[i].1, base + i) := by
  induction l generalizing base i with
  | nil => simp at hi
  | cons q t ih =>
    cases i with
    | zero => rfl
    | succ j =>
      have hj : j < t.length := by simpa using hi
      have hj2 : j < (freshRefs (base + 1) t).length := by
        rw [freshRefs_length]
        omega
      have := ih (base + 1) j hj hj2
      simp only [freshRefs, List.getElem_cons_succ] at hi2 ⊢
      rw [this]
      simp
      omega

theorem mem_freshRefs (base : ℕ) (l : List (String × ℕ))
    (q : String × ℕ) (hq : q ∈ freshRefs base l) :
    ∃ j, ∃ hj : j < l.length, q = (l[j].1, base + j) := by
  induction l generalizing base with
  | nil => simp [freshRefs] at hq
  | cons a t ih =>
    rcases List.mem_cons.mp hq with rfl | hq'
    · exact ⟨0, by simp, rfl⟩
    · rcases ih (base + 1) hq' with ⟨j, hj, rfl⟩
      exact ⟨j + 1, by simpa using hj, by simp; omega⟩

theorem freshRefs_map_fst (base : ℕ) (l : List (String × ℕ)) :
    (freshRefs base l).map Prod.fst = l.map Prod.fst := by
  induction l generalizing base with
  | nil => rfl
  | cons q t ih => simp [freshRefs, ih]

/-- A name found in a list of references is found in its fresh copy. -/
theorem freshRefs_find?_isSome (base : ℕ) (l : List (String × ℕ)) (nm : String)
    (hl : (l.find? (fun q => q.1 = nm)).isSome) :
    ((freshRefs base l).find? (fun q => q.1 = nm)).isSome := by
  rcases Option.isSome_iff_exists.mp hl with ⟨q, hq⟩
  have hmem := List.mem_of_find?_eq_some hq
  have hpred := List.find?_some hq
  rw [Option.isSome_iff_exists]
  by_contra hnone
  push_neg at hnone
  have : (freshRefs base l).find? (fun q => q.1 = nm) = none :=
    Option.eq_none_iff_forall_not_mem.mpr fun a ha => hnone a ha
  rw [List.find?_eq_none] at this
  rcases List.mem_iff_getElem.mp hmem with ⟨j, hj, hjq⟩
  have hmem' : (l[j].1, base + j) ∈ freshRefs base l := by
    rw [← freshRefs_getElem base l j hj (by rw [freshRefs_length]; omega)]
    exact List.getElem_mem _
  have := this _ hmem'
  simp only [hjq] at this
  simp only [decide_eq_true_eq] at this hpred
  exact this hpred

end Cpp

namespace Cpp

/-- Reading below the old heap length is unchanged by the two copies and
the two up/down shocks of a `CurveDecorator`. -/
theorem curveDecorator_rcs_getD_low (h : Heap) (orig : MarketH) (marketId : String)
    (s : ℚ) (ref : ℕ) (href : ref < h.rcs.length) :
    (curveDecorator h orig marketId s).1.rcs.getD ref emptyCurve =
      h.rcs.getD ref emptyCurve := by
  unfold curveDecorator copyMarket
  dsimp only []
  have happend1 : ∀ (B C : List Curve),
      ((h.rcs ++ B ++ C)).getD ref emptyCurve = h.rcs.getD ref emptyCurve := by
    intro B C
    rw [List.append_assoc, getD_append_left _ _ _ _ href]
  rcases hfind : (freshRefs h.rcs.length orig.curves).find? (fun q => q.1 = marketId) with _ | q0 <;> rcases hfind2 : (freshRefs (h.rcs ++ (List.map (fun q => h.rcs.getD q.2 emptyCurve) orig.curves)).length orig.curves).find? (fun q => q.1 = marketId) with _ | q1
  · simp only [hfind, hfind2, happend1]
  · simp only [hfind, hfind2, Heap.shockR]
    rcases mem_freshRefs _ _ _ (List.mem_of_find?_eq_some hfind2) with ⟨j, hj, rfl⟩
    rw [getD_set_ne _ _ _ _ _ (by simp; omega), happend1]
  · simp only [hfind, hfind2, Heap.shockR]
    rcases mem_freshRefs _ _ _ (List.mem_of_find?_eq_some hfind) with ⟨j, hj, rfl⟩
    rw [getD_set_ne _ _ _ _ _ (by simp; omega), happend1]
  · simp only [hfind, hfind2, Heap.shockR]
    rcases mem_freshRefs _ _ _ (List.mem_of_find?_eq_some hfind) with ⟨j, hj, rfl⟩
    rcases mem_freshRefs _ _ _ (List.mem_of_find?_eq_some hfind2) with ⟨j2, hj2, rfl⟩
    rw [getD_set_ne _ _ _ _ _ (by simp; omega),
      getD_set_ne _ _ _ _ _ (by simp; omega), happend1]

/-- A `CurveDecorator` never touches vol-curve heap cells. -/
theorem curveDecorator_vcs_getD_low (h : Heap) (orig : MarketH) (marketId : String)
    (s : ℚ) (ref : ℕ) (href : ref < h.vcs.length) :
    (curveDecorator h orig marketId s).1.vcs.getD ref emptyCurve =
      h.vcs.getD ref emptyCurve := by
  unfold curveDecorator copyMarket
  dsimp only []
  rcases hfind : (freshRefs h.rcs.length orig.curves).find? (fun q => q.1 = marketId) with _ | q0 <;> rcases hfind2 : (freshRefs (h.rcs ++ (List.map (fun q => h.rcs.getD q.2 emptyCurve) orig.curves)).length orig.curves).find? (fun q => q.1 = marketId) with _ | q1 <;> simp only [hfind, hfind2, Heap.shockR] <;> rw [List.append_assoc, getD_append_left _ _ _ _ href]

/-- Reading below the old heap length is unchanged by a
`VolDecorator`. -/
theorem volDecorator_vcs_getD_low (h : Heap) (orig : MarketH) (marketId : String)
    (s : ℚ) (ref : ℕ) (href : ref < h.vcs.length) :
    (volDecorator h orig marketId s).1.vcs.getD ref emptyCurve =
      h.vcs.getD ref emptyCurve := by
  unfold volDecorator copyMarket
  dsimp only []
  have happend1 : ∀ (B C : List Curve),
      ((h.vcs ++ B ++ C)).getD ref emptyCurve = h.vcs.getD ref emptyCurve := by
    intro B C
    rw [List.append_assoc, getD_append_left _ _ _ _ href]
  rcases hfind : (freshRefs h.vcs.length orig.vols).find? (fun q => q.1 = marketId) with _ | q0 <;> rcases hfind2 : (freshRefs (h.vcs ++ (List.map (fun q => h.vcs.getD q.2 emptyCurve) orig.vols)).length orig.vols).find? (fun q => q.1 = marketId) with _ | q1
  · simp only [hfind, hfind2, happend1]
  · simp only [hfind, hfind2, Heap.shockV]
    rcases mem_freshRefs _ _ _ (List.mem_of_find?_eq_some hfind2) with ⟨j, hj, rfl⟩
    rw [getD_set_ne _ _ _ _ _ (by simp; omega), happend1]
  · simp only [hfind, hfind2, Heap.shockV]
    rcases mem_freshRefs _ _ _ (List.mem_of_find?_eq_some hfind) with ⟨j, hj, rfl⟩
    rw [getD_set_ne _ _ _ _ _ (by simp; omega), happend1]
  · simp only [hfind, hfind2, Heap.shockV]
    rcases mem_freshRefs _ _ _ (List.mem_of_find?_eq_some hfind) with ⟨j, hj, rfl⟩
    rcases mem_freshRefs _ _ _ (List.mem_of_find?_eq_some hfind2) with ⟨j2, hj2, rfl⟩
    rw [getD_set_ne _ _ _ _ _ (by simp; omega),
      getD_set_ne _ _ _ _ _ (by simp; omega), happend1]

/-- A `VolDecorator` never touches rate-curve heap cells. -/
theorem volDecorator_rcs_getD_low (h : Heap) (orig : MarketH) (marketId : String)
    (s : ℚ) (ref : ℕ) (href : ref < h.rcs.length) :
    (volDecorator h orig marketId s).1.rcs.getD ref emptyCurve =
      h.rcs.getD ref emptyCurve := by
  unfold volDecorator copyMarket
  dsimp only []
  rcases hfind : (freshRefs h.vcs.length orig.vols).find? (fun q => q.1 = marketId) with _ | q0 <;> rcases hfind2 : (freshRefs (h.vcs ++ (List.map (fun q => h.vcs.getD q.2 emptyCurve) orig.vols)).length orig.vols).find? (fun q => q.1 = marketId) with _ | q1 <;> simp only [hfind, hfind2, Heap.shockV] <;> rw [List.append_assoc, getD_append_left _ _ _ _ href]

/-- The observable content of a market depends on the heap only through
the cells its references point at. -/
theorem view_eq_of_getD_eq (m : MarketH) (h h' : Heap)
    (hr : ∀ q ∈ m.curves, h'.rcs.getD q.2 emptyCurve = h.rcs.getD q.2 emptyCurve)
    (hv : ∀ q ∈ m.vols, h'.vcs.getD q.2 emptyCurve = h.vcs.getD q.2 emptyCurve) :
    m.view h' = m.view h := by
  unfold MarketH.view
  congr 1
  · exact List.map_congr_left fun q hq => by rw [hr q hq]
  · exact List.map_congr_left fun q hq => by rw [hv q hq]

/-! ## C2: the risk engine leaves the original market unchanged -/

/-- C2: after `computeDv01` and `computeVega` return, the caller's
original market is observationally unchanged — every rate curve, every
vol curve and every spot price read through the final heap is identical
to its state before the call; only the decorators' internal deep copies
are shocked. -/
theorem risk_engine_preserves_original_market (h : Heap) (trade : TradeCap)
    (orig : MarketH) (price price' : MarketView → ℚ) (s s' : ℚ)
    (hwf : orig.wf h) :
    orig.view (computeDv01 h trade orig price s).1 = orig.view h ∧
      orig.view (computeVega h trade orig price' s').1 = orig.view h := by
  rcases hwf with ⟨hr, hv, _, _⟩
  constructor
  · unfold computeDv01
    dsimp only []
    by_cases h1 : trade.rateCurveName = ""
    · rw [if_pos h1]
    · rw [if_neg h1]
      by_cases h2 : (List.find? (fun q => decide (q.1 = trade.rateCurveName))
          orig.curves).isNone = true
      · rw [if_pos h2]
      · rw [if_neg h2]
        apply view_eq_of_getD_eq
        · intro q hq
          exact curveDecorator_rcs_getD_low h orig trade.rateCurveName s q.2 (hr q hq)
        · intro q hq
          exact curveDecorator_vcs_getD_low h orig trade.rateCurveName s q.2 (hv q hq)
  · unfold computeVega
    dsimp only []
    by_cases h1 : trade.volCurveName = ""
    · rw [if_pos h1]
    · rw [if_neg h1]
      by_cases h2 : (List.find? (fun q => decide (q.1 = trade.volCurveName))
          orig.vols).isNone = true
      · rw [if_pos h2]
      · rw [if_neg h2]
        apply view_eq_of_getD_eq
        · intro q hq
          exact volDecorator_rcs_getD_low h orig trade.volCurveName s' q.2 (hr q hq)
        · intro q hq
          exact volDecorator_vcs_getD_low h orig trade.volCurveName s' q.2 (hv q hq)

/-- Witness for C2: a one-curve market with a European option trade. -/
theorem risk_engine_preserves_original_market_witness :
    (⟨45306, [("USD-SOFR", 0)], [("SPX_Vol_Curve", 0)], [("SPX", 100)], []⟩ :
        MarketH).wf ⟨[⟨[45671], [1 / 20]⟩], [⟨[45671], [1 / 5]⟩]⟩ ∧
      (MarketH.view ⟨45306, [("USD-SOFR", 0)], [("SPX_Vol_Curve", 0)], [("SPX", 100)], []⟩
          (computeDv01 ⟨[⟨[45671], [1 / 20]⟩], [⟨[45671], [1 / 5]⟩]⟩
            ⟨"USD-SOFR", "SPX_Vol_Curve"⟩
            ⟨45306, [("USD-SOFR", 0)], [("SPX_Vol_Curve", 0)], [("SPX", 100)], []⟩
            (fun _ => 0) defaultCurveShockAbs).1 =
        MarketH.view ⟨45306, [("USD-SOFR", 0)], [("SPX_Vol_Curve", 0)], [("SPX", 100)], []⟩
          ⟨[⟨[45671], [1 / 20]⟩], [⟨[45671], [1 / 5]⟩]⟩) ∧
      (MarketH.view ⟨45306, [("USD-SOFR", 0)], [("SPX_Vol_Curve", 0)], [("SPX", 100)], []⟩
          (computeVega ⟨[⟨[45671], [1 / 20]⟩], [⟨[45671], [1 / 5]⟩]⟩
            ⟨"USD-SOFR", "SPX_Vol_Curve"⟩
            ⟨45306, [("USD-SOFR", 0)], [("SPX_Vol_Curve", 0)], [("SPX", 100)], []⟩
            (fun _ => 0) defaultVolShockAbs).1 =
        MarketH.view ⟨45306, [("USD-SOFR", 0)], [("SPX_Vol_Curve", 0)], [("SPX", 100)], []⟩
          ⟨[⟨[45671], [1 / 20]⟩], [⟨[45671], [1 / 5]⟩]⟩) :=
  ⟨by constructor <;> simp [MarketH.wf],
    (risk_engine_preserves_original_market
      ⟨[⟨[45671], [1 / 20]⟩], [⟨[45671], [1 / 5]⟩]⟩ ⟨"USD-SOFR", "SPX_Vol_Curve"⟩
      ⟨45306, [("USD-SOFR", 0)], [("SPX_Vol_Curve", 0)], [("SPX", 100)], []⟩
      (fun _ => 0) (fun _ => 0) defaultCurveShockAbs defaultVolShockAbs
      (by constructor <;> simp [MarketH.wf])).1,
    (risk_engine_preserves_original_market
      ⟨[⟨[45671], [1 / 20]⟩], [⟨[45671], [1 / 5]⟩]⟩ ⟨"USD-SOFR", "SPX_Vol_Curve"⟩
      ⟨45306, [("USD-SOFR", 0)], [("SPX_Vol_Curve", 0)], [("SPX", 100)], []⟩
      (fun _ => 0) (fun _ => 0) defaultCurveShockAbs defaultVolShockAbs
      (by constructor <;> simp [MarketH.wf])).2⟩

/-- Reading entry `k` of the first copied block. -/
theorem getD_append2_mid {α} (l1 B C : List α) (k : ℕ) (d : α)
    (hk : k < B.length) :
    (l1 ++ B ++ C).getD (l1.length + k) d = B.getD k d := by
  rw [List.append_assoc, getD_append_right, getD_append_left _ _ _ _ hk]

/-- Reading entry `k` of the second copied block. -/
theorem getD_append2_right {α} (l1 B C : List α) (k : ℕ) (d : α)
    (hlen : B.length = l1.length) :
    (l1 ++ B ++ C).getD (l1.length + l1.length + k) d = C.getD k d := by
  rw [List.append_assoc,
    show l1.length + l1.length + k = l1.length + (l1.length + k) from by omega,
    getD_append_right, ← hlen, getD_append_right]

/-- The contents copied from a market's rate curves. -/
theorem copied_rcs_getD (h : Heap) (orig : MarketH) (k : ℕ)
    (hk : k < orig.curves.length) :
    (List.map (fun q => h.rcs.getD q.2 emptyCurve) orig.curves).getD k emptyCurve =
      h.rcs.getD orig.curves[k].2 emptyCurve := by
  rw [getD_eq_getElem _ _ _ (by simpa using hk), List.getElem_map]

/-- The contents copied from a market's vol curves. -/
theorem copied_vcs_getD (h : Heap) (orig : MarketH) (k : ℕ)
    (hk : k < orig.vols.length) :
    (List.map (fun q => h.vcs.getD q.2 emptyCurve) orig.vols).getD k emptyCurve =
      h.vcs.getD orig.vols[k].2 emptyCurve := by
  rw [getD_eq_getElem _ _ _ (by simpa using hk), List.getElem_map]

/-- Names are unique, so two distinct indices carry distinct names. -/
theorem name_ne_of_index_ne (l : List (String × ℕ))
    (hnd : (l.map Prod.fst).Nodup) (i j : ℕ) (hi : i < l.length)
    (hj : j < l.length) (hij : i ≠ j) : l[i].1 ≠ l[j].1 := by
  intro hcon
  apply hij
  have hmf := List.nodup_iff_injective_get.mp hnd
  have h1 : (l.map Prod.fst).get ⟨i, by simpa using hi⟩ =
      (l.map Prod.fst).get ⟨j, by simpa using hj⟩ := by
    simp only [List.get_eq_getElem, List.getElem_map]
    exact hcon
  have := hmf h1
  simpa using this

/-- The up-market of a `CurveDecorator` observes exactly the original
market with the named rate curve parallel-shifted by `+s`. -/
theorem curveDecorator_up_view (h : Heap) (orig : MarketH) (marketId : String)
    (s : ℚ) (hwf : orig.wf h)
    (hfound : (orig.curves.find? (fun q => q.1 = marketId)).isSome) :
    (curveDecorator h orig marketId s).2.1.view (curveDecorator h orig marketId s).1 =
      (orig.view h).shockRateCurve marketId s := by
  rcases hwf with ⟨hr, hv, hnd, _⟩
  unfold curveDecorator copyMarket
  dsimp only []
  have hfound1 : ((freshRefs h.rcs.length orig.curves).find?
      (fun q => q.1 = marketId)).isSome :=
    freshRefs_find?_isSome _ _ _ hfound
  rcases Option.isSome_iff_exists.mp hfound1 with ⟨q0, hfind⟩
  rcases mem_freshRefs _ _ _ (List.mem_of_find?_eq_some hfind) with ⟨j, hj, rfl⟩
  have hjname : orig.curves[j].1 = marketId := by
    have := List.find?_some hfind
    simpa using this
  have hAlen : (List.map (fun q => h.rcs.getD q.2 emptyCurve) orig.curves).length =
      orig.curves.length := by
    simp
  -- the shocked cell of the up market, read back
  have hsetread : ∀ (C : List Curve) (i : ℕ) (hi : i < orig.curves.length)
      (hC : ∀ (k : ℕ) (hk : k < orig.curves.length),
        C.getD (h.rcs.length + k) emptyCurve =
          h.rcs.getD orig.curves[k].2 emptyCurve)
      (hlenC : h.rcs.length + i < C.length),
      (C.set (h.rcs.length + j)
          ((C.getD (h.rcs.length + j) emptyCurve).shock s)).getD
        (h.rcs.length + i) emptyCurve =
      (if orig.curves[i].1 = marketId then
        ((h.rcs.getD orig.curves[i].2 emptyCurve).shock s)
      else h.rcs.getD orig.curves[i].2 emptyCurve) := by
    intro C i hi hC hlenC
    rcases eq_or_ne i j with rfl | hij
    · rw [getD_set_self _ _ _ _ hlenC, if_pos hjname, hC i hi]
    · rw [getD_set_ne _ _ _ _ _ (by omega),
        if_neg (by rw [← hjname]; exact name_ne_of_index_ne _ hnd i j hi hj hij),
        hC i hi]
  rcases hfind2 : (freshRefs (h.rcs ++ (List.map (fun q => h.rcs.getD q.2 emptyCurve) orig.curves)).length orig.curves).find? (fun q => q.1 = marketId) with _ | q1
  all_goals
    try rcases mem_freshRefs _ _ _ (List.mem_of_find?_eq_some hfind2) with ⟨j2, hj2, rfl⟩
  all_goals simp only [hfind, hfind2]
  all_goals unfold MarketH.view MarketView.shockRateCurve Heap.shockR
  all_goals dsimp only []
  all_goals refine congrArg₂ (fun a b => MarketView.mk orig.asOf a b orig.stocks) ?_ ?_
  -- four goals: curves and vols for the no-second-write and second-write cases
  case _ =>  -- curves, no second write
    apply List.ext_getElem
    · simp [freshRefs_length]
    · intro i hi1 hi2
      have hin : i < orig.curves.length := by
        simpa [freshRefs_length] using hi1
      simp only [List.getElem_map]
      rw [freshRefs_getElem _ _ _ hin (by rw [freshRefs_length]; exact hin)]
      dsimp only []
      rw [hsetread _ i hin
        (fun k hk => by
          rw [getD_append2_mid _ _ _ _ _ (by rw [hAlen]; exact hk)]
          exact copied_rcs_getD h orig k hk)
        (by simp only [List.length_append, List.length_map, List.length_set]; omega)]
      split_ifs <;> rfl
  case _ =>  -- vols, no second write
    apply List.ext_getElem
    · simp [freshRefs_length]
    · intro i hi1 hi2
      have hin : i < orig.vols.length := by
        simpa [freshRefs_length] using hi1
      simp only [List.getElem_map]
      rw [freshRefs_getElem _ _ _ hin (by rw [freshRefs_length]; exact hin)]
      dsimp only []
      rw [getD_append2_mid _ _ _ _ _ (by simp; exact hin)]
      rw [copied_vcs_getD h orig i hin]
  case _ =>  -- curves, with the down write at a fresh higher cell
    apply List.ext_getElem
    · simp [freshRefs_length]
    · intro i hi1 hi2
      have hin : i < orig.curves.length := by
        simpa [freshRefs_length] using hi1
      simp only [List.getElem_map]
      rw [freshRefs_getElem _ _ _ hin (by rw [freshRefs_length]; exact hin)]
      dsimp only []
      rw [getD_set_ne _ _ _ _ _ (by
        simp only [List.length_append, List.length_map]
        omega)]
      rw [hsetread _ i hin
        (fun k hk => by
          rw [getD_append2_mid _ _ _ _ _ (by rw [hAlen]; exact hk)]
          exact copied_rcs_getD h orig k hk)
        (by simp only [List.length_append, List.length_map]; omega)]
      split_ifs <;> rfl
  case _ =>  -- vols, with the down write (vol cells untouched either way)
    apply List.ext_getElem
    · simp [freshRefs_length]
    · intro i hi1 hi2
      have hin : i < orig.vols.length := by
        simpa [freshRefs_length] using hi1
      simp only [List.getElem_map]
      rw [freshRefs_getElem _ _ _ hin (by rw [freshRefs_length]; exact hin)]
      dsimp only []
      rw [getD_append2_mid _ _ _ _ _ (by simp; exact hin)]
      rw [copied_vcs_getD h orig i hin]

/-- The down-market of a `CurveDecorator` observes exactly the original
market with the named rate curve parallel-shifted by `-s`. -/
theorem curveDecorator_down_view (h : Heap) (orig : MarketH) (marketId : String)
    (s : ℚ) (hwf : orig.wf h)
    (hfound : (orig.curves.find? (fun q => q.1 = marketId)).isSome) :
    (curveDecorator h orig marketId s).2.2.view (curveDecorator h orig marketId s).1 =
      (orig.view h).shockRateCurve marketId (-s) := by
  rcases hwf with ⟨hr, hv, hnd, _⟩
  unfold curveDecorator copyMarket
  dsimp only []
  have hfound1 : ((freshRefs h.rcs.length orig.curves).find?
      (fun q => q.1 = marketId)).isSome :=
    freshRefs_find?_isSome _ _ _ hfound
  rcases Option.isSome_iff_exists.mp hfound1 with ⟨q0, hfind⟩
  rcases mem_freshRefs _ _ _ (List.mem_of_find?_eq_some hfind) with ⟨j, hj, rfl⟩
  have hfound2 : ((freshRefs (h.rcs ++ (List.map (fun q => h.rcs.getD q.2 emptyCurve) orig.curves)).length orig.curves).find?
      (fun q => q.1 = marketId)).isSome :=
    freshRefs_find?_isSome _ _ _ hfound
  rcases Option.isSome_iff_exists.mp hfound2 with ⟨q1, hfind2⟩
  rcases mem_freshRefs _ _ _ (List.mem_of_find?_eq_some hfind2) with ⟨j2, hj2, rfl⟩
  have hjname2 : orig.curves[j2].1 = marketId := by
    have := List.find?_some hfind2
    simpa using this
  have copied2_getD : ∀ (k : ℕ) (hk : k < orig.curves.length),
      (List.map (fun q =>
        (h.rcs ++ (List.map (fun q => h.rcs.getD q.2 emptyCurve) orig.curves)).getD
          q.2 emptyCurve) orig.curves).getD k emptyCurve =
      h.rcs.getD orig.curves[k].2 emptyCurve := by
    intro k hk
    rw [getD_eq_getElem _ _ _ (by simpa using hk), List.getElem_map,
      getD_append_left _ _ _ _ (hr _ (List.getElem_mem hk))]
  have copied2v_getD : ∀ (k : ℕ) (hk : k < orig.vols.length),
      (List.map (fun q =>
        (h.vcs ++ (List.map (fun q => h.vcs.getD q.2 emptyCurve) orig.vols)).getD
          q.2 emptyCurve) orig.vols).getD k emptyCurve =
      h.vcs.getD orig.vols[k].2 emptyCurve := by
    intro k hk
    rw [getD_eq_getElem _ _ _ (by simpa using hk), List.getElem_map,
      getD_append_left _ _ _ _ (hv _ (List.getElem_mem hk))]
  simp only [hfind, hfind2]
  unfold MarketH.view MarketView.shockRateCurve Heap.shockR
  dsimp only []
  refine congrArg₂ (fun a b => MarketView.mk orig.asOf a b orig.stocks) ?_ ?_
  · -- rate-curve entries of the down market
    apply List.ext_getElem
    · simp [freshRefs_length]
    · intro i hi1 hi2
      have hin : i < orig.curves.length := by
        simpa [freshRefs_length] using hi1
      simp only [List.getElem_map]
      rw [freshRefs_getElem _ _ _ hin (by rw [freshRefs_length]; exact hin)]
      dsimp only []
      rcases eq_or_ne i j2 with rfl | hij2
      · rw [getD_set_self _ _ _ _ (by
            simp only [List.length_set, List.length_append, List.length_map]
            omega),
          getD_set_ne _ _ _ _ _ (by
            simp only [List.length_append, List.length_map]
            omega),
          getD_append_right, copied2_getD i hin, if_pos hjname2]
      · rw [getD_set_ne _ _ _ _ _ (by omega)]
        rw [getD_set_ne _ _ _ _ _ (by
          simp only [List.length_append, List.length_map]
          omega)]
        rw [getD_append_right]
        rw [copied2_getD i hin]
        rw [if_neg (fun hcon =>
          (name_ne_of_index_ne _ hnd i j2 hin hj2 hij2) (hcon.trans hjname2.symm))]
  · -- vol-curve entries of the down market
    apply List.ext_getElem
    · simp [freshRefs_length]
    · intro i hi1 hi2
      have hin : i < orig.vols.length := by
        simpa [freshRefs_length] using hi1
      simp only [List.getElem_map]
      rw [freshRefs_getElem _ _ _ hin (by rw [freshRefs_length]; exact hin)]
      dsimp only []
      rw [getD_append_right, copied2v_getD i hin]

/-- `computeDv01` in the productive case: one entry, keyed by the curve
name, valued at the central difference of the two shocked
revaluations. -/
theorem computeDv01_eq (h : Heap) (trade : TradeCap) (orig : MarketH)
    (price : MarketView → ℚ) (s : ℚ) (hwf : orig.wf h)
    (hname : ¬ trade.rateCurveName = "")
    (hfound : (orig.curves.find? (fun q => q.1 = trade.rateCurveName)).isSome) :
    (computeDv01 h trade orig price s).2 =
      [(trade.rateCurveName,
        (price ((orig.view h).shockRateCurve trade.rateCurveName s) -
          price ((orig.view h).shockRateCurve trade.rateCurveName (-s))) / 2)] := by
  have hnone : ¬ ((orig.curves.find? (fun q =>
      q.1 = trade.rateCurveName)).isNone = true) := by
    intro hN
    rcases Option.isSome_iff_exists.mp hfound with ⟨q, hq⟩
    rw [Option.isNone_iff_eq_none] at hN
    rw [hN] at hq
    exact Option.noConfusion hq
  unfold computeDv01
  dsimp only []
  rw [if_neg hname, if_neg hnone]
  dsimp only []
  rw [curveDecorator_up_view h orig _ s hwf hfound,
    curveDecorator_down_view h orig _ s hwf hfound]

/-! ## C3: computeDv01 — applicability and the central difference -/

/-- C3: `computeDv01` returns the empty map when the trade names no
rate curve or the named curve is absent from the market; otherwise the
result has exactly one entry, keyed by the curve name, whose value is
(price under the market with the curve shifted by `+h`, minus the price
with the curve shifted by `-h`) divided by 2; the constructor default
for `h` is 0.0001. -/
theorem computeDv01_central_difference (h : Heap) (trade : TradeCap)
    (orig : MarketH) (price : MarketView → ℚ) (s : ℚ) (hwf : orig.wf h) :
    (trade.rateCurveName = "" → (computeDv01 h trade orig price s).2 = []) ∧
      ((orig.curves.find? (fun q => q.1 = trade.rateCurveName)) = none →
        (computeDv01 h trade orig price s).2 = []) ∧
      (¬ trade.rateCurveName = "" →
        (orig.curves.find? (fun q => q.1 = trade.rateCurveName)).isSome →
        (computeDv01 h trade orig price s).2 =
          [(trade.rateCurveName,
            (price ((orig.view h).shockRateCurve trade.rateCurveName s) -
              price ((orig.view h).shockRateCurve trade.rateCurveName (-s))) / 2)]) ∧
      defaultCurveShockAbs = 1 / 10 ^ 4 := by
  refine ⟨?_, ?_, ?_, rfl⟩
  · intro h1
    unfold computeDv01
    dsimp only []
    rw [if_pos h1]
  · intro h2
    unfold computeDv01
    dsimp only []
    by_cases h1 : trade.rateCurveName = ""
    · rw [if_pos h1]
    · rw [if_neg h1, if_pos (by rw [h2]; rfl)]
  · intro h1 h2
    exact computeDv01_eq h trade orig price s hwf h1 h2

/-- Witness for C3: a two-curve market; the pricer capability reads the
shocked curve, so the central difference is the shock size itself. -/
theorem computeDv01_central_difference_witness :
    ((⟨45306, [("USD-SOFR", 0)], [("SPX_Vol_Curve", 0)], [("SPX", 100)], []⟩ :
          MarketH).wf ⟨[⟨[45671], [1 / 20]⟩], [⟨[45671], [1 / 5]⟩]⟩ ∧
        ¬ (⟨"USD-SOFR", "SPX_Vol_Curve"⟩ : TradeCap).rateCurveName = "" ∧
        ((⟨45306, [("USD-SOFR", 0)], [("SPX_Vol_Curve", 0)], [("SPX", 100)], []⟩ :
            MarketH).curves.find?
          (fun q => q.1 = (⟨"USD-SOFR", "SPX_Vol_Curve"⟩ : TradeCap).rateCurveName)).isSome) ∧
      (computeDv01 ⟨[⟨[45671], [1 / 20]⟩], [⟨[45671], [1 / 5]⟩]⟩
          ⟨"USD-SOFR", "SPX_Vol_Curve"⟩
          ⟨45306, [("USD-SOFR", 0)], [("SPX_Vol_Curve", 0)], [("SPX", 100)], []⟩
          (fun v => (v.getCurve "USD-SOFR").get 45671) defaultCurveShockAbs).2 =
        [("USD-SOFR",
          ((fun v : MarketView => (v.getCurve "USD-SOFR").get 45671)
              ((MarketH.view
                  ⟨45306, [("USD-SOFR", 0)], [("SPX_Vol_Curve", 0)], [("SPX", 100)], []⟩
                  ⟨[⟨[45671], [1 / 20]⟩], [⟨[45671], [1 / 5]⟩]⟩).shockRateCurve
                "USD-SOFR" defaultCurveShockAbs) -
            (fun v : MarketView => (v.getCurve "USD-SOFR").get 45671)
              ((MarketH.view
                  ⟨45306, [("USD-SOFR", 0)], [("SPX_Vol_Curve", 0)], [("SPX", 100)], []⟩
                  ⟨[⟨[45671], [1 / 20]⟩], [⟨[45671], [1 / 5]⟩]⟩).shockRateCurve
                "USD-SOFR" (-defaultCurveShockAbs))) / 2)] :=
  ⟨⟨by constructor <;> simp [MarketH.wf], by simp, by simp⟩,
    (computeDv01_central_difference ⟨[⟨[45671], [1 / 20]⟩], [⟨[45671], [1 / 5]⟩]⟩
      ⟨"USD-SOFR", "SPX_Vol_Curve"⟩
      ⟨45306, [("USD-SOFR", 0)], [("SPX_Vol_Curve", 0)], [("SPX", 100)], []⟩
      (fun v => (v.getCurve "USD-SOFR").get 45671) defaultCurveShockAbs
      (by constructor <;> simp [MarketH.wf])).2.2.1 (by simp) (by simp)⟩

/-! ## C10: the tree pricer reads only fixed curve names -/

/-- Shocking a rate curve under one name leaves every other name's
`getCurve` unchanged. -/
theorem shockRateCurve_getCurve_ne (v : MarketView) (nm : String) (s : ℚ)
    (nm' : String) (hne : nm' ≠ nm) :
    (v.shockRateCurve nm s).getCurve nm' = v.getCurve nm' := by
  unfold MarketView.shockRateCurve MarketView.getCurve
  dsimp only []
  rw [List.find?_map]
  have hpred : ((fun q : String × Curve => decide (q.1 = nm')) ∘
      (fun q => if q.1 = nm then (q.1, q.2.shock s) else q)) =
      fun q : String × Curve => decide (q.1 = nm') := by
    funext q
    by_cases hq : q.1 = nm <;> simp [hq]
  rw [hpred]
  cases hf : v.curves.find? (fun q => q.1 = nm') with
  | none => rfl
  | some q =>
    have hq : q.1 = nm' := by simpa using List.find?_some hf
    dsimp only [Option.map]
    rw [if_neg (by rw [hq]; exact hne)]

/-- Shocking a rate curve never changes any vol-curve lookup, the spot
map or the as-of date (they are separate fields). -/
theorem shockRateCurve_preserves_rest (v : MarketView) (nm : String) (s : ℚ) :
    (v.shockRateCurve nm s).asOf = v.asOf ∧
      (v.shockRateCurve nm s).vols = v.vols ∧
      (v.shockRateCurve nm s).stocks = v.stocks :=
  ⟨rfl, rfl, rfl⟩

/-- C10 (implicit): the CRR tree pricer reads the risk-free rate only
from the curve named "USD_Yield_Curve" and the volatility only from
"SPX_Vol_Curve", ignoring the instrument's own curve names; hence for a
tree product whose rate-curve name differs from "USD_Yield_Curve" but is
present in the market, `computeDv01` shocks a curve the pricer never
reads, both shocked prices equal the base price, and the returned
sensitivity is exactly 0. -/
theorem computeDv01_zero_for_unread_curve (rexp rsqrt : ℚ → ℚ)
    (nTimeSteps : ℤ) (fixedRiskFreeRate : ℚ) (h : Heap) (orig : MarketH)
    (prod : TreeProduct) (s : ℚ) (hwf : orig.wf h)
    (hname : prod.rateCurveName ≠ "USD_Yield_Curve")
    (hne : ¬ prod.rateCurveName = "")
    (hfound : (orig.curves.find? (fun q => q.1 = prod.rateCurveName)).isSome) :
    (∀ v : MarketView,
        crrPriceTree rexp rsqrt nTimeSteps fixedRiskFreeRate
            (v.shockRateCurve prod.rateCurveName s) prod =
          crrPriceTree rexp rsqrt nTimeSteps fixedRiskFreeRate v prod) ∧
      (computeDv01 h ⟨prod.rateCurveName, prod.volCurveName⟩ orig
          (fun v => crrPriceTree rexp rsqrt nTimeSteps fixedRiskFreeRate v prod)
          s).2 =
        [(prod.rateCurveName, 0)] := by
  have hinv : ∀ (v : MarketView) (s' : ℚ),
      crrPriceTree rexp rsqrt nTimeSteps fixedRiskFreeRate
          (v.shockRateCurve prod.rateCurveName s') prod =
        crrPriceTree rexp rsqrt nTimeSteps fixedRiskFreeRate v prod := by
    intro v s'
    apply crrPriceTree_congr
    · rfl
    · rfl
    · rfl
    · rw [shockRateCurve_getCurve_ne v prod.rateCurveName s' "USD_Yield_Curve"
        (fun hcon => hname hcon.symm)]
  refine ⟨fun v => hinv v s, ?_⟩
  rw [computeDv01_eq h ⟨prod.rateCurveName, prod.volCurveName⟩ orig _ s hwf
    hne hfound]
  dsimp only []
  rw [hinv _ s, hinv _ (-s), sub_self, zero_div]

/-- Witness for C10: a European option naming its default curve
"USD-SOFR", present in the market, while the pricer reads
"USD_Yield_Curve". -/
theorem computeDv01_zero_for_unread_curve_witness :
    ((⟨45306, [("USD-SOFR", 0)], [("SPX_Vol_Curve", 0)], [("SPX", 100)], []⟩ :
          MarketH).wf ⟨[⟨[45671], [1 / 20]⟩], [⟨[45671], [1 / 5]⟩]⟩ ∧
        (europeanOption .Call 100 45671 "SPX" "USD-SOFR" "SPX_Vol_Curve").rateCurveName ≠
          "USD_Yield_Curve" ∧
        ¬ (europeanOption .Call 100 45671 "SPX" "USD-SOFR" "SPX_Vol_Curve").rateCurveName = "" ∧
        ((⟨45306, [("USD-SOFR", 0)], [("SPX_Vol_Curve", 0)], [("SPX", 100)], []⟩ :
            MarketH).curves.find? (fun q =>
          q.1 = (europeanOption .Call 100 45671 "SPX" "USD-SOFR"
            "SPX_Vol_Curve").rateCurveName)).isSome) ∧
      (computeDv01 ⟨[⟨[45671], [1 / 20]⟩], [⟨[45671], [1 / 5]⟩]⟩
          ⟨(europeanOption .Call 100 45671 "SPX" "USD-SOFR" "SPX_Vol_Curve").rateCurveName,
            (europeanOption .Call 100 45671 "SPX" "USD-SOFR" "SPX_Vol_Curve").volCurveName⟩
          ⟨45306, [("USD-SOFR", 0)], [("SPX_Vol_Curve", 0)], [("SPX", 100)], []⟩
          (fun v => crrPriceTree (fun x => 1 + x) (fun x => x) 1 (-1) v
            (europeanOption .Call 100 45671 "SPX" "USD-SOFR" "SPX_Vol_Curve"))
          defaultCurveShockAbs).2 =
        [((europeanOption .Call 100 45671 "SPX" "USD-SOFR" "SPX_Vol_Curve").rateCurveName, 0)] :=
  ⟨⟨by constructor <;> simp [MarketH.wf], by simp [europeanOption],
      by simp [europeanOption], by simp [europeanOption]⟩,
    (computeDv01_zero_for_unread_curve (fun x => 1 + x) (fun x => x) 1 (-1)
      ⟨[⟨[45671], [1 / 20]⟩], [⟨[45671], [1 / 5]⟩]⟩
      ⟨45306, [("USD-SOFR", 0)], [("SPX_Vol_Curve", 0)], [("SPX", 100)], []⟩
      (europeanOption .Call 100 45671 "SPX" "USD-SOFR" "SPX_Vol_Curve")
      defaultCurveShockAbs (by constructor <;> simp [MarketH.wf])
      (by simp [europeanOption]) (by simp [europeanOption])
      (by simp [europeanOption])).2⟩

/-! ## C8: American prices dominate European prices -/

/-- Entries of the tree layers: inside the layer the mapped function,
outside the `getD` default 0. -/
theorem getD_map_range (f : ℕ → ℚ) (n i : ℕ) :
    ((List.range n).map f).getD i 0 = if i < n then f i else 0 := by
  by_cases h : i < n
  · rw [if_pos h, getD_eq_getElem _ _ _ (by simpa using h)]
    simp
  · rw [if_neg h, List.getD_eq_getElem?_getD, List.getElem?_eq_none (by simpa using h)]
    rfl

/-- The first entry of a list equals `getD 0`. -/
theorem headD_eq_getD (l : List ℚ) : l.headD 0 = l.getD 0 0 := by
  cases l <;> rfl

/-- One backward step preserves pointwise domination of the American
layer (`max(payoff, continuation)`) over the European layer
(`continuation`), given `p ∈ [0,1]` and a non-negative discount
factor. -/
theorem stepBack_mono (payoff : ℚ → ℚ) (S0 u d p df dt : ℚ)
    (hp0 : 0 ≤ p) (hp1 : p ≤ 1) (hdf : 0 ≤ df) (k : ℕ) (a b : List ℚ)
    (hab : ∀ i, a.getD i 0 ≤ b.getD i 0) :
    ∀ i, (stepBack (fun _ _ continuation => continuation) S0 u d p df dt k a).getD i 0 ≤
      (stepBack (fun S _ continuation => max (payoff S) continuation) S0 u d p df dt k b).getD i 0 := by
  intro i
  unfold stepBack
  rw [getD_map_range, getD_map_range]
  by_cases h : i < k + 1
  · rw [if_pos h, if_pos h]
    have hcont : df * (a.getD i 0 * p + a.getD (i + 1) 0 * (1 - p)) ≤
        df * (b.getD i 0 * p + b.getD (i + 1) 0 * (1 - p)) := by
      apply mul_le_mul_of_nonneg_left _ hdf
      have h1 : a.getD i 0 * p ≤ b.getD i 0 * p :=
        mul_le_mul_of_nonneg_right (hab i) hp0
      have h2 : a.getD (i + 1) 0 * (1 - p) ≤ b.getD (i + 1) 0 * (1 - p) :=
        mul_le_mul_of_nonneg_right (hab (i + 1)) (by linarith)
      linarith
    exact le_trans hcont (le_max_right _ _)
  · rw [if_neg h, if_neg h]

/-- The full backward induction preserves pointwise domination. -/
theorem backInduct_mono (payoff : ℚ → ℚ) (S0 u d p df dt : ℚ)
    (hp0 : 0 ≤ p) (hp1 : p ≤ 1) (hdf : 0 ≤ df) :
    ∀ (n : ℕ) (a b : List ℚ), (∀ i, a.getD i 0 ≤ b.getD i 0) →
      ∀ i, (backInduct (fun _ _ continuation => continuation) S0 u d p df dt n a).getD i 0 ≤
        (backInduct (fun S _ continuation => max (payoff S) continuation) S0 u d p df dt n b).getD i 0 := by
  intro n
  induction n with
  | zero => intro a b hab; exact hab
  | succ k ih =>
    intro a b hab
    exact ih _ _ (stepBack_mono payoff S0 u d p df dt hp0 hp1 hdf k a b hab)

/-- C8: for every market and every American/European pair agreeing in
option type, strike, expiry and underlying, the CRR binomial-tree price
of the American option is at least the European price: both share the
lattice parameters, the American `ValueAtNode` takes
`max(payoff, continuation)` while the European returns the continuation,
and the clamped `p ∈ [0,1]` with a non-negative discount factor makes
backward induction monotone.  (`rexp` models `std::exp`, which is
non-negative.) -/
theorem american_ge_european (rexp rsqrt : ℚ → ℚ) (hexp : ∀ x, 0 ≤ rexp x)
    (nTimeSteps : ℤ) (fixedRiskFreeRate : ℚ) (mkt : MarketView)
    (optType : OptionType) (strike : ℚ) (expiry : ℤ)
    (und rc vc : String) :
    crrPriceTree rexp rsqrt nTimeSteps fixedRiskFreeRate mkt
        (europeanOption optType strike expiry und rc vc) ≤
      crrPriceTree rexp rsqrt nTimeSteps fixedRiskFreeRate mkt
        (americanOption optType strike expiry und rc vc) := by
  unfold crrPriceTree europeanOption americanOption
  simp only []
  split_ifs
  · exact le_refl _
  · exact le_refl _
  · exact le_refl _
  · rw [headD_eq_getD, headD_eq_getD]
    apply backInduct_mono
    · exact riskNeutralP_nonneg _ _ _ _ _ _
    · exact riskNeutralP_le_one _ _ _ _ _ _
    · exact hexp _
    · intro i
      exact le_refl _

/-- Witness for C8: the spec's put scenario S0=100, K=110, r=0.05,
sigma=0.2, T=1 (365 days), N=50. -/
theorem american_ge_european_witness :
    (∀ x : ℚ, 0 ≤ (fun y : ℚ => max (1 + y) (1 / 2)) x) ∧
      crrPriceTree (fun y => max (1 + y) (1 / 2)) (fun y => y) 50 (-1)
          ⟨45306, [("USD_Yield_Curve", ⟨[45671], [1 / 20]⟩)],
            [("SPX_Vol_Curve", ⟨[45671], [1 / 5]⟩)], [("SPX", 100)]⟩
          (europeanOption .Put 110 45671 "SPX" "USD-SOFR" "SPX_Vol_Curve") ≤
        crrPriceTree (fun y => max (1 + y) (1 / 2)) (fun y => y) 50 (-1)
          ⟨45306, [("USD_Yield_Curve", ⟨[45671], [1 / 20]⟩)],
            [("SPX_Vol_Curve", ⟨[45671], [1 / 5]⟩)], [("SPX", 100)]⟩
          (americanOption .Put 110 45671 "SPX" "USD-SOFR" "SPX_Vol_Curve") :=
  ⟨fun x => le_max_of_le_right (by norm_num),
    american_ge_european (fun y => max (1 + y) (1 / 2)) (fun y => y)
      (fun x => le_max_of_le_right (by norm_num)) 50 (-1)
      ⟨45306, [("USD_Yield_Curve", ⟨[45671], [1 / 20]⟩)],
        [("SPX_Vol_Curve", ⟨[45671], [1 / 5]⟩)], [("SPX", 100)]⟩
      .Put 110 45671 "SPX" "USD-SOFR" "SPX_Vol_Curve"⟩

/-! ## C1: empty curves return 0.0 and pricing proceeds with a 0 rate -/

/-- C1 counterexample: `getRate` on an empty curve returns the plain
number 0.0 — the same value a genuine stored 0.0 quote returns — and
`BinomialTreePricer::PriceTree` on a market with no "USD_Yield_Curve"
does not abort: it returns the plain price 10, exactly the price a
zero-rate curve produces. -/
theorem empty_curve_get_and_missing_curve_price_plain_values :
    emptyCurve.get 45671 = 0 ∧
      (emptyCurve.addPoint 45671 0).get 45671 = 0 ∧
      btPriceTree (fun x => 1 + x) (fun x => x) 1 (-1)
          ⟨45306, [], [("SPX_Vol_Curve", ⟨[45671], [1 / 5]⟩)], [("SPX", 100)]⟩
          (europeanOption .Call 100 45671 "SPX" "USD-SOFR" "VOL_CURVE_DEFAULT") = 10 ∧
      btPriceTree (fun x => 1 + x) (fun x => x) 1 (-1)
          ⟨45306, [("USD_Yield_Curve", ⟨[45306], [0]⟩)],
            [("SPX_Vol_Curve", ⟨[45671], [1 / 5]⟩)], [("SPX", 100)]⟩
          (europeanOption .Call 100 45671 "SPX" "USD-SOFR" "VOL_CURVE_DEFAULT") = 10 := by
  refine ⟨by simp [Curve.get, emptyCurve], ?_, ?_, ?_⟩ <;>
    norm_num [btPriceTree, yearsBetween, eps6, eps14, MarketView.getStockPrice,
      MarketView.getVolCurve, MarketView.getCurve, Curve.get, Curve.isEmpty,
      Curve.addPoint, europeanOption, vanillaOption, riskNeutralP, clamp01,
      btModelSetup, terminalStates, stepBack, backInduct, getSpot,
      List.range_succ, lowerBoundIdx, emptyCurve, abs_of_pos, abs_of_nonneg]

/-- C1 (amended): `get` on an empty curve logs a warning and returns the
plain number 0.0, indistinguishable from a genuine zero quote; and when
the trade's rate curve ("USD_Yield_Curve") is missing or empty and no
fixed rate is set, `BinomialTreePricer::PriceTree` logs a warning,
defaults the rate to 0.0 and silently returns the price computed with a
zero rate — it does not abort. -/
theorem empty_curve_get_zero_and_zero_rate_price (rexp rsqrt : ℚ → ℚ)
    (nTimeSteps : ℤ) (fixedRiskFreeRate : ℚ) (hfr : fixedRiskFreeRate < 0)
    (mkt : MarketView) (trade : TreeProduct) (d : ℤ)
    (hempty : (mkt.getCurve "USD_Yield_Curve").isEmpty = true) :
    (∀ t : ℤ, emptyCurve.get t = 0) ∧
      btPriceTree rexp rsqrt nTimeSteps fixedRiskFreeRate mkt trade =
        btPriceTree rexp rsqrt nTimeSteps fixedRiskFreeRate
          ⟨mkt.asOf, ("USD_Yield_Curve", ⟨[d], [0]⟩) :: mkt.curves, mkt.vols,
            mkt.stocks⟩ trade := by
  constructor
  · intro t
    simp [Curve.get, emptyCurve]
  · apply btPriceTree_congr
    · rfl
    · rfl
    · rfl
    · have hyc : (⟨mkt.asOf, ("USD_Yield_Curve", ⟨[d], [0]⟩) :: mkt.curves,
          mkt.vols, mkt.stocks⟩ : MarketView).getCurve "USD_Yield_Curve" =
          ⟨[d], [0]⟩ := by
        simp [MarketView.getCurve]
      rw [hyc, hempty]
      simp [Curve.isEmpty, flatZeroCurve_get]

/-- Witness for C1 (amended): a market with no rate curve at all. -/
theorem empty_curve_get_zero_and_zero_rate_price_witness :
    ((-1 : ℚ) < 0 ∧
        ((⟨45306, [], [("SPX_Vol_Curve", ⟨[45671], [1 / 5]⟩)],
            [("SPX", 100)]⟩ : MarketView).getCurve
          "USD_Yield_Curve").isEmpty = true) ∧
      ((∀ t : ℤ, emptyCurve.get t = 0) ∧
        btPriceTree (fun x => 1 + x) (fun x => x) 1 (-1)
            ⟨45306, [], [("SPX_Vol_Curve", ⟨[45671], [1 / 5]⟩)], [("SPX", 100)]⟩
            (europeanOption .Call 100 45671 "SPX" "USD-SOFR" "VOL_CURVE_DEFAULT") =
          btPriceTree (fun x => 1 + x) (fun x => x) 1 (-1)
            ⟨(⟨45306, [], [("SPX_Vol_Curve", ⟨[45671], [1 / 5]⟩)],
                [("SPX", 100)]⟩ : MarketView).asOf,
              ("USD_Yield_Curve", ⟨[45306], [0]⟩) ::
                (⟨45306, [], [("SPX_Vol_Curve", ⟨[45671], [1 / 5]⟩)],
                  [("SPX", 100)]⟩ : MarketView).curves,
              (⟨45306, [], [("SPX_Vol_Curve", ⟨[45671], [1 / 5]⟩)],
                [("SPX", 100)]⟩ : MarketView).vols,
              (⟨45306, [], [("SPX_Vol_Curve", ⟨[45671], [1 / 5]⟩)],
                [("SPX", 100)]⟩ : MarketView).stocks⟩
            (europeanOption .Call 100 45671 "SPX" "USD-SOFR" "VOL_CURVE_DEFAULT")) :=
  ⟨⟨by norm_num, by rfl⟩,
    empty_curve_get_zero_and_zero_rate_price (fun x => 1 + x) (fun x => x) 1 (-1)
      (by norm_num)
      ⟨45306, [], [("SPX_Vol_Curve", ⟨[45671], [1 / 5]⟩)], [("SPX", 100)]⟩
      (europeanOption .Call 100 45671 "SPX" "USD-SOFR" "VOL_CURVE_DEFAULT") 45306
      (by rfl)⟩

/-! ## C9: tenor arithmetic -/

set_option maxRecDepth 16000 in
/-- C9 counterexample: `addTenor(2024-01-15, "12M")` adds 360 serial
days, but the resulting date is 2025-01-09, not the claimed 2025-01-10
(2024 is a leap year, so 360 days after Jan 15, 2024 falls on Jan 9,
2025). -/
theorem addTenor_12M_from_2024_01_15_is_not_2025_01_10 :
    dateAddTenor (calculateSerialNumber 2024 1 15) ['1', '2', 'M'] =
        .ok (calculateSerialNumber 2024 1 15 + 360) ∧
      calculateYMD (calculateSerialNumber 2024 1 15 + 360) = (2025, 1, 9) ∧
      calculateSerialNumber 2025 1 10 ≠ calculateSerialNumber 2024 1 15 + 360 := by
  refine ⟨by rfl, ?_, by decide⟩
  decide

set_option maxRecDepth 16000 in
/-- C9 (amended): tenor offsets add exactly `numUnits*1` days for 'D',
`numUnits*7` for 'W', `numUnits*30` for 'M', `numUnits*360` for 'Y', and
exactly +1 day for "ON"/"O/N" (case-insensitive); in particular
`addTenor(2024-01-15, "12M")` adds 360 serial days and yields
2025-01-09. -/
theorem tenor_offsets_and_12M_scenario (s : ℤ) (l : List Char) (n : ℤ)
    (hparse : stoiInt (l.map charToLower).dropLast = some n)
    (hon : l.map charToLower ≠ ['o', 'n'])
    (hon2 : l.map charToLower ≠ ['o', '/', 'n']) :
    ((l.map charToLower).getLastD ' ' = 'd' → 0 < s + n →
        dateAddTenor s l = .ok (s + n)) ∧
      ((l.map charToLower).getLastD ' ' = 'w' → 0 < s + n * 7 →
        dateAddTenor s l = .ok (s + n * 7)) ∧
      ((l.map charToLower).getLastD ' ' = 'm' → 0 < s + n * 30 →
        dateAddTenor s l = .ok (s + n * 30)) ∧
      ((l.map charToLower).getLastD ' ' = 'y' → 0 < s + n * 360 →
        dateAddTenor s l = .ok (s + n * 360)) ∧
      (∀ t : ℤ, 0 < t + 1 →
        dateAddTenor t ['O', 'N'] = .ok (t + 1) ∧
          dateAddTenor t ['O', '/', 'N'] = .ok (t + 1)) ∧
      dateAddTenor (calculateSerialNumber 2024 1 15) ['1', '2', 'M'] =
          .ok (calculateSerialNumber 2024 1 15 + 360) ∧
      calculateYMD (calculateSerialNumber 2024 1 15 + 360) = (2025, 1, 9) := by
  have hnonempty : l.map charToLower ≠ [] := by
    intro h
    rw [h] at hparse
    simp [stoiInt] at hparse
  have hnum : (l.map charToLower).dropLast ≠ [] := by
    intro h
    rw [h] at hparse
    simp [stoiInt] at hparse
  refine ⟨?_, ?_, ?_, ?_, ?_, by rfl, by decide⟩
  pick_goal 5
  · intro t ht
    constructor <;>
      · unfold dateAddTenor
        rw [if_pos (by decide)]
        simp only [bind, Except.bind, pure, Except.pure]
        rw [if_neg (by omega)]
  all_goals
    intro hu hpos
    unfold dateAddTenor
    rw [if_neg (by simp [hon, hon2]), if_neg (by simpa using hnonempty),
      if_neg (by simpa using hnum), hparse, hu]
    simp only [reduceIte, Char.reduceEq]
    simp only [bind, Except.bind, pure, Except.pure]
    rw [if_neg (by omega)]

/-- Witness for C9 (amended): "10D" adds exactly 10 days. -/
theorem tenor_offsets_and_12M_scenario_witness :
    (stoiInt ((['1', '0', 'D'].map charToLower)).dropLast = some 10 ∧
        ['1', '0', 'D'].map charToLower ≠ ['o', 'n'] ∧
        ['1', '0', 'D'].map charToLower ≠ ['o', '/', 'n'] ∧
        (['1', '0', 'D'].map charToLower).getLastD ' ' = 'd' ∧
        (0 : ℤ) < 100 + 10) ∧
      dateAddTenor 100 ['1', '0', 'D'] = .ok (100 + 10) :=
  ⟨⟨by decide, by decide, by decide, by decide, by decide⟩,
    (tenor_offsets_and_12M_scenario 100 ['1', '0', 'D'] 10 (by decide)
      (by decide) (by decide)).1 (by decide) (by decide)⟩

/-! ## C6: expired instruments price to intrinsic payoff -/

/-- C6: for every tree product and market, when the time to expiry
`T = yearsBetween(expiry, asOf)` is zero or negative, the CRR tree
pricer returns exactly `payoff(spot)` — the intrinsic payoff at the
underlying's spot — with no tree construction, for any instrument. -/
theorem crr_expired_prices_to_intrinsic (rexp rsqrt : ℚ → ℚ) (nTimeSteps : ℤ)
    (fixedRiskFreeRate : ℚ) (mkt : MarketView) (trade : TreeProduct)
    (hT : yearsBetween trade.expiry mkt.asOf ≤ 0) :
    crrPriceTree rexp rsqrt nTimeSteps fixedRiskFreeRate mkt trade =
      trade.payoff (mkt.getStockPrice trade.underlying) := by
  have heps : (0 : ℚ) < eps6 := by norm_num [eps6]
  unfold crrPriceTree
  by_cases h1 : yearsBetween trade.expiry mkt.asOf < eps6 ∧
      -eps6 < yearsBetween trade.expiry mkt.asOf
  · rw [if_pos h1]
  · have h2 : yearsBetween trade.expiry mkt.asOf < 0 := by
      rcases not_and_or.mp h1 with h | h
      · exact absurd (lt_of_le_of_lt hT heps) h
      · have := not_lt.mp h
        linarith
    rw [if_neg h1, if_pos h2]

/-- Witness for C6: a European put expiring on the as-of date. -/
theorem crr_expired_prices_to_intrinsic_witness :
    yearsBetween (45306 : ℤ) (45306 : ℤ) ≤ 0 ∧
      crrPriceTree (fun x => 1 + x) (fun x => x) 50 (-1)
          ⟨45306, [], [], [("SPX", 100)]⟩
          (europeanOption .Put 110 45306 "SPX" "USD-SOFR" "SPX_Vol_Curve") =
        (europeanOption .Put 110 45306 "SPX" "USD-SOFR" "SPX_Vol_Curve").payoff
          ((⟨45306, [], [], [("SPX", 100)]⟩ : MarketView).getStockPrice "SPX") :=
  ⟨by norm_num [yearsBetween],
    crr_expired_prices_to_intrinsic (fun x => 1 + x) (fun x => x) 50 (-1)
      ⟨45306, [], [], [("SPX", 100)]⟩
      (europeanOption .Put 110 45306 "SPX" "USD-SOFR" "SPX_Vol_Curve")
      (by norm_num [yearsBetween, europeanOption])⟩

end Cpp
